import Mathlib

/-!
Verification of the MAX-AI task-orchestration core (planner, parallel executor,
result polisher) against its natural-language specification.

The Python sources under `src/orchestrator/` are shallowly embedded below:
pure functions become Lean functions, Python dicts become association lists
(`StrMap`), Python sets become lists used up to membership, the filesystem and
the tool registry become explicit function parameters, and the wall clock
becomes an explicit numeric parameter.  Regular-expression patterns from
`fast_planner.py` are embedded as executable matching functions over
`List Char`; `\w`, `\s` and `\d` character classes are modelled for the
character repertoire that actually occurs in this code base (ASCII plus CJK
text, where every CJK character is a Python word character and `\d`/`\s`
occurrences are ASCII).
-/

namespace MaxAI

/-! ### Generic string machinery (models of Python `str` operations and the
regular-expression fragments used by `fast_planner.py`) -/

/-- Characters matched by the regex class `\s` for the inputs considered here
(Python also accepts some rarer Unicode spaces). -/
def isSpaceChar (c : Char) : Bool :=
  c = ' ' || c = '\t' || c = '\n' || c = '\r'

/-- Characters matched by the regex class `\d` (ASCII digits; Python's `\d`
additionally matches non-ASCII decimal digits, which do not occur in the
inputs considered here). -/
def isDigitChar (c : Char) : Bool :=
  '0' ≤ c && c ≤ '9'

/-- Characters matched by the regex class `\w`, modelled as ASCII alphanumerics,
underscore, and every non-ASCII character (CJK characters are Python word
characters; non-word non-ASCII punctuation does not occur in the vocabulary
of this code base). -/
def isWordChar (c : Char) : Bool :=
  c.isAlphanum || c = '_' || decide (c.val ≥ 128)

/-- Model of Python `str.lower` (exact for ASCII and for CJK text, which has no
case). -/
def lowerStr (s : String) : String :=
  ⟨s.data.map Char.toLower⟩

/-- Is `pre` a prefix of `l`?  (Plain executable list prefix test.) -/
def listHasPre : List Char → List Char → Bool
  | [], _ => true
  | _ :: _, [] => false
  | a :: pre, b :: l => a = b && listHasPre pre l

/-- Does `needle` occur as a contiguous substring of `hay`?  Models Python's
`needle in hay` on strings and `re.search` of a literal pattern. -/
def subOcc (needle : List Char) : List Char → Bool
  | [] => listHasPre needle []
  | l@(_ :: rest) => listHasPre needle l || subOcc needle rest

/-- String-level substring test: models Python `needle in hay`. -/
def strContains (hay needle : String) : Bool :=
  subOcc needle.data hay.data

/-- Search for literal `b` allowing an arbitrary newline-free gap before it:
the continuation of matching `a.*b` after `a` has matched (a regex `.` does
not match a newline). -/
def gapThen (b : List Char) : List Char → Bool
  | [] => listHasPre b []
  | l@(c :: rest) => listHasPre b l || (!(c = '\n') && gapThen b rest)

/-- Model of `re.search(a + ".*" + b, hay)` for literal fragments `a`, `b`:
some occurrence of `a` is followed, after a newline-free gap, by an
occurrence of `b`. -/
def dotStar (a b : List Char) : List Char → Bool
  | [] => listHasPre a [] && gapThen b []
  | l@(_ :: rest) =>
      (listHasPre a l && gapThen b (l.drop a.length)) || dotStar a b rest

/-- Does any of the literal alternatives occur in `hay`?  Models a regex
alternation of literals such as `"搜索|查找|…"`. -/
def anySub (alts : List String) (hay : List Char) : Bool :=
  alts.any (fun a => subOcc a.data hay)

/-- Longest digit run at the head of the list, with the remainder. -/
def digitRun : List Char → List Char × List Char
  | [] => ([], [])
  | l@(c :: rest) =>
      if isDigitChar c then
        let (run, rem) := digitRun rest
        (c :: run, rem)
      else ([], l)

/-- Drop the longest whitespace run at the head of the list. -/
def dropSpaces : List Char → List Char
  | [] => []
  | l@(c :: rest) => if isSpaceChar c then dropSpaces rest else l

/-- Try to match the regex `\d+\s*[\+\-\*\/]\s*\d+` at the head of the list. -/
def arithHere (l : List Char) : Bool :=
  match digitRun l with
  | ([], _) => false
  | (_ :: _, rem) =>
      match dropSpaces rem with
      | [] => false
      | c :: rem2 =>
          (c = '+' || c = '-' || c = '*' || c = '/') &&
          (match digitRun (dropSpaces rem2) with
           | ([], _) => false
           | (_ :: _, _) => true)

/-- Model of `re.search(r"\d+\s*[\+\-\*\/]\s*\d+", hay)` as a Boolean: scans
all start positions left to right. -/
def arithOcc : List Char → Bool
  | [] => false
  | l@(_ :: rest) => arithHere l || arithOcc rest

/-- Try to match `(\d+)\s*(?:到|至|~|-)\s*(\d+)` at the head of the list,
returning the two captured digit runs.  The separator characters are not
digits and not whitespace, so the greedy digit/space runs never need to
backtrack. -/
def rangeHere (l : List Char) : Option (List Char × List Char) :=
  match digitRun l with
  | ([], _) => none
  | (d1@(_ :: _), rem) =>
      match dropSpaces rem with
      | [] => none
      | c :: rem2 =>
          if c = '到' || c = '至' || c = '~' || c = '-' then
            match digitRun (dropSpaces rem2) with
            | ([], _) => none
            | (d2@(_ :: _), _) => some (d1, d2)
          else none

/-- Model of `re.search(r"(\d+)\s*(?:到|至|~|-)\s*(\d+)", hay)`: leftmost
match, returning the two captures. -/
def rangeOcc : List Char → Option (List Char × List Char)
  | [] => none
  | l@(_ :: rest) =>
      match rangeHere l with
      | some r => some r
      | none => rangeOcc rest

/-- Characters of the regex class `[\d\+\-\*\/\(\)\s]`. -/
def isMathChar (c : Char) : Bool :=
  isDigitChar c || c = '+' || c = '-' || c = '*' || c = '/' ||
  c = '(' || c = ')' || isSpaceChar c

/-- Longest run of `isMathChar` characters at the head of the list. -/
def mathRun : List Char → List Char
  | [] => []
  | c :: rest => if isMathChar c then c :: mathRun rest else []

/-- Model of `re.search(r"[\d\+\-\*\/\(\)\s]+", hay)`: the first (leftmost,
maximal) nonempty run of arithmetic-expression characters. -/
def mathOcc : List Char → Option (List Char)
  | [] => none
  | l@(c :: rest) => if isMathChar c then some (mathRun l) else mathOcc rest

/-- Helper for `digitRuns`: scans the list keeping the (reversed) digit run
currently being read in `acc`. -/
def digitRunsAux : List Char → List Char → List (List Char)
  | [], acc => if acc.isEmpty then [] else [acc.reverse]
  | c :: rest, acc =>
      if isDigitChar c then digitRunsAux rest (c :: acc)
      else if acc.isEmpty then digitRunsAux rest []
      else acc.reverse :: digitRunsAux rest []

/-- Model of `re.findall(r"\d+", hay)`: all maximal digit runs, left to
right. -/
def digitRuns (l : List Char) : List (List Char) := digitRunsAux l []

/-- Strip the given characters from both ends of a list (Python
`str.strip(chars)`). -/
def stripEnds (p : Char → Bool) (l : List Char) : List Char :=
  ((l.dropWhile p).reverse.dropWhile p).reverse

/-- Python `str.strip()` (whitespace from both ends). -/
def pyStrip (l : List Char) : List Char := stripEnds isSpaceChar l

/-- Python `str.strip()` at the `String` level. -/
def pyStripStr (s : String) : String := ⟨pyStrip s.data⟩

/-- The quote characters stripped by `image_path.strip("'\"")` in
`parallel_executor._resolve_params` (an apostrophe and a double quote). -/
def isQuoteChar (c : Char) : Bool :=
  c = Char.ofNat 39 || c = '"'

/-- Python `s.strip("'\"")`. -/
def stripQuotes (s : String) : String := ⟨stripEnds isQuoteChar s.data⟩

/-- Is `w` present at the head of `l` with a `\b` word boundary after it?
(`prev` tells whether the character immediately before `l` is a word
character.) -/
def wordHereB (w : List Char) (l : List Char) : Bool :=
  listHasPre w l &&
  (match l.drop w.length with
   | [] => true
   | c :: _ => !isWordChar c)

/-- Model of `re.sub(rf"\b{word}\b", "", s)`: remove every occurrence of the
literal `word` that is delimited by `\b` word boundaries on both sides.
`prevIsWord` records whether the previous character was a word character.
`fuel` bounds the number of scan steps; every step consumes at least one
character, so `fuel = l.length` (as used by `subWordBounded`) always
suffices and the fuel-exhausted branch is unreachable. -/
def subWordBoundedAux (w : List Char) : Nat → List Char → Bool → List Char
  | 0, l, _ => l
  | _ + 1, [], _ => []
  | fuel + 1, c :: rest, prevIsWord =>
      if !prevIsWord && !w.isEmpty && wordHereB w (c :: rest) then
        subWordBoundedAux w fuel ((c :: rest).drop w.length)
          (match w.getLast? with
           | some cl => isWordChar cl
           | none => prevIsWord)
      else c :: subWordBoundedAux w fuel rest (isWordChar c)

/-- Remove all `\b`-delimited occurrences of `word` from `s` (start of string
is a non-word position). -/
def subWordBounded (word : String) (s : String) : String :=
  ⟨subWordBoundedAux word.data s.data.length s.data false⟩

/-- Scan for `]` allowing any newline-free gap (the `.*?\]` part of the
file-annotation pattern); returns the list after the consumed `]`, or `none`
if the pattern cannot complete. -/
def gapToBracket : List Char → Option (List Char)
  | [] => none
  | c :: rest =>
      if c = ']' then some rest
      else if c = '\n' then none
      else gapToBracket rest

/-- Model of `re.sub(r"\[用户上传了文件:.*?\]", "", s)` from
`FastPlanner._decompose_tasks`: delete every bracketed upload annotation.
`fuel` bounds the number of scan steps; every step consumes at least one
character (a deleted annotation consumes its whole span), so
`fuel = l.length` as used by `removeFileAnnotations` always suffices. -/
def removeFileAnnotationsAux : Nat → List Char → List Char
  | 0, l => l
  | _ + 1, [] => []
  | fuel + 1, c :: rest =>
      if listHasPre "[用户上传了文件:".data (c :: rest) then
        match gapToBracket ((c :: rest).drop ("[用户上传了文件:".data.length)) with
        | some rem => removeFileAnnotationsAux fuel rem
        | none => c :: removeFileAnnotationsAux fuel rest
      else c :: removeFileAnnotationsAux fuel rest

/-- Annotation removal at full fuel. -/
def removeFileAnnotations (l : List Char) : List Char :=
  removeFileAnnotationsAux l.length l

/-! ### Python values, dicts and assoc maps -/

/-- Python values that occur in task parameters and tool outputs in the
orchestrator core: strings, small integers, and `None`. -/
inductive PyVal where
  | vStr (s : String)
  | vNat (n : Nat)
  | vNone
deriving DecidableEq

/-- Python `str(v)` on the values above (`str(None) = "None"`). -/
def pyStr : PyVal → String
  | .vStr s => s
  | .vNat n => Nat.repr n
  | .vNone => "None"

/-- Association list modelling a Python `dict` (insertion-ordered, keys
unique by construction of the operations below). -/
abbrev StrMap (α : Type) : Type := List (String × α)

/-- Python `d.get(k)` / `d[k]` lookup. -/
def alGet {α : Type} : StrMap α → String → Option α
  | [], _ => none
  | (k', v) :: rest, k => if k' = k then some v else alGet rest k

/-- Python `d[k] = v`: replace in place if the key exists (keeping its
position), otherwise append. -/
def alSet {α : Type} : StrMap α → String → α → StrMap α
  | [], k, v => [(k, v)]
  | (k', v') :: rest, k, v =>
      if k' = k then (k', v) :: rest else (k', v') :: alSet rest k v

/-- Python `d1.update(d2)`. -/
def alUpdate {α : Type} (d1 d2 : StrMap α) : StrMap α :=
  d2.foldl (fun acc kv => alSet acc kv.1 kv.2) d1

/-- A Python task-parameter dict. -/
abbrev Dict := StrMap PyVal

/-! ### Planner data model (`fast_planner.py`) -/

/-- The `Intent` enumeration. -/
inductive Intent where
  | search
  | calculate
  | codeExecute
  | fileOp
  | dataAnalysis
  | webScrape
  | multiStep
  | simpleQA
deriving DecidableEq, Inhabited

/-- The `Task` dataclass.  `dependencies` is a Python `set` of task ids,
modelled as a list used up to membership. -/
structure Task where
  id : String
  intent : Intent
  tool : String
  params : Dict
  dependencies : List String
  priority : Nat
  estimated_time_ms : Nat
deriving DecidableEq, Inhabited

/-- The `ExecutionPlan` dataclass. -/
structure ExecutionPlan where
  tasks : List Task
  parallel_batches : List (List String)
  total_estimated_ms : Nat
  requires_llm_polish : Bool
deriving DecidableEq

/-- The planner/executor context dict.  `uploaded_files` drives
classification and parameter extraction; `recent_turns` and
`recent_tool_results` are read by `plan`/`_classify_intent` only to print
log lines and never influence the returned plan. -/
structure Ctx where
  uploaded_files : List String := []
  recent_turns : List String := []
  recent_tool_results : List String := []
deriving DecidableEq

/-- Image-file extensions tested by substring (`ext in file_lower`) in
`_classify_intent` and `_decompose_tasks`. -/
def imageExts : List String :=
  [".jpg", ".jpeg", ".png", ".gif", ".webp", ".bmp"]

/-- Non-image document extensions tested by substring in
`_classify_intent`. -/
def docExts : List String :=
  [".txt", ".docx", ".doc", ".pdf", ".csv", ".json", ".py", ".md", ".html", ".css", ".js"]

/-- Embedding of `any(ext in file_lower for ext in [...])` on the lowercased file name. -/
def isImageFile (f : String) : Bool :=
  imageExts.any (fun e => strContains (lowerStr f) e)

/-- Document-extension test on the lowercased file name. -/
def isDocFile (f : String) : Bool :=
  docExts.any (fun e => strContains (lowerStr f) e)

/-- The competing-intent keywords checked before an image triggers a vision
task in `_classify_intent`. -/
def competingKeywords : List String := ["搜索", "计算", "代码", "执行"]

/-- The uploaded-files scan at the start of `_classify_intent`: the first
image file with no competing keyword in the query, or the first document
file, appends `FILE_OP` once and stops the scan. -/
def scanUploads (queryLower : List Char) : List String → List Intent
  | [] => []
  | f :: rest =>
      if isImageFile f then
        if !(competingKeywords.any (fun k => subOcc k.data queryLower)) then [.fileOp]
        else scanUploads queryLower rest
      else if isDocFile f then [.fileOp]
      else scanUploads queryLower rest

/-- The `intent_patterns` table, in dict insertion order.  Each entry matches
iff any of the intent's pattern strings matches the lowercased query. -/
def patternTable : List (Intent × (List Char → Bool)) :=
  [ (.search, fun q =>
      anySub ["搜索", "查找", "找一下", "查询", "search", "find"] q ||
      (dotStar "最新".data "信息".data q || subOcc "进展".data q || subOcc "动态".data q)),
    (.calculate, fun q =>
      arithOcc q ||
      anySub ["计算", "求和", "求积", "sum", "calculate"] q),
    (.codeExecute, fun q =>
      anySub ["运行", "执行", "代码", "python", "javascript"] q ||
      (dotStar "写".data "程序".data q || dotStar "生成".data "脚本".data q)),
    (.fileOp, fun q =>
      anySub ["读取", "保存", "文件", "file", "csv", "txt", "json"] q ||
      anySub ["打开", "写入"] q),
    (.dataAnalysis, fun q =>
      anySub ["分析", "统计", "对比", "趋势", "analyze"] q ||
      (dotStar "数据".data "处理".data q || subOcc "可视化".data q)),
    (.webScrape, fun q =>
      anySub ["抓取", "爬取", "网页", "scrape", "crawl"] q ||
      dotStar "提取".data "内容".data q),
    (.multiStep, fun q =>
      anySub ["然后", "接着", "并且", "同时"] q ||
      (dotStar "首先".data "其次".data q || dotStar "第一".data "第二".data q)) ]

/-- The rule-matching loop of `_classify_intent`: appends each intent whose
pattern list has a match, in table order. -/
def detectByPatterns (queryLower : List Char) : List Intent :=
  (patternTable.filter (fun e => e.2 queryLower)).map (·.1)

/-- Embedding of `FastPlanner._classify_intent`.  The continuation-keyword check only
prints a log line and is omitted.  `MULTI_STEP` is removed again after
detection; an empty result defaults to `SIMPLE_QA`. -/
def classifyIntent (query : String) (ctx : Ctx) : List Intent :=
  let queryLower := (lowerStr query).data
  let detected := scanUploads queryLower ctx.uploaded_files ++ detectByPatterns queryLower
  let detected := detected.erase .multiStep
  if detected.isEmpty then [.simpleQA] else detected

/-- Task ids are generated as `f"task_{task_id}"` with a sequential
counter. -/
def taskId (n : Nat) : String := "task_" ++ Nat.repr n

/-- The `intent_to_tool` mapping (`None` for intents without a tool). -/
def intentTool : Intent → Option String
  | .search => some "intelligent_search"
  | .calculate => some "code_execution"
  | .codeExecute => some "code_execution"
  | .fileOp => some "file_operations"
  | .dataAnalysis => some "data_analysis"
  | .webScrape => some "file_scraper"
  | _ => none

/-- Embedding of `FastPlanner._get_priority`. -/
def getPriority : Intent → Nat
  | .fileOp => 10
  | .search => 8
  | .webScrape => 8
  | .dataAnalysis => 5
  | .codeExecute => 5
  | .calculate => 3
  | _ => 5

/-- Embedding of `FastPlanner._estimate_task_time`. -/
def estimateTaskTime (tool : String) : Nat :=
  if tool = "intelligent_search" then 2000
  else if tool = "file_operations" then 100
  else if tool = "code_execution" then 1500
  else if tool = "data_analysis" then 2000
  else if tool = "file_scraper" then 3000
  else 1000

/-- The noise words stripped (as `\b`-bounded whole words) by
`_extract_search_params`. -/
def noiseWords : List String := ["搜索", "查找", "找一下", "帮我", "请"]

/-- Embedding of `FastPlanner._extract_search_params`. -/
def extractSearchParams (query : String) (_ctx : Ctx) : Dict :=
  let cleaned := noiseWords.foldl (fun acc w => subWordBounded w acc) query
  let cleaned := pyStripStr cleaned
  let cleaned := if cleaned = "" then pyStripStr query else cleaned
  [("query", .vStr cleaned), ("max_results", .vNat 5)]

/-- The code template emitted by the range-sum branch of
`_extract_calc_params` (`s`, `e` are the two captured digit strings). -/
def rangeSumCode (s e : String) : String :=
  "# 计算 " ++ s ++ " 到 " ++ e ++ " 的和\n" ++
  "result = sum(range(" ++ s ++ ", " ++ e ++ "+1))\n" ++
  "print(f\"" ++ s ++ " 到 " ++ e ++ " 的和是: \x7bresult\x7d\")"

/-- The code template emitted by the bare-arithmetic-expression branch of
`_extract_calc_params`. -/
def mathExprCode (expr : String) : String :=
  "# 计算: " ++ expr ++ "\n" ++
  "result = " ++ expr ++ "\n" ++
  "print(f\"计算结果: \x7bresult\x7d\")"

/-- The code template emitted by the all-numbers fallback branch of
`_extract_calc_params`. -/
def sumNumbersCode (numbers : List String) : String :=
  "# 求和\n" ++
  "result = sum([" ++ String.intercalate ", " numbers ++ "])\n" ++
  "print(f\"结果: \x7bresult\x7d\")"

/-- The branches of `_extract_calc_params` after the range-sum test has
failed: bare arithmetic expression, else sum of all found numbers, else a
cannot-parse placeholder. -/
def extractCalcParamsRest (query : String) : Dict :=
  match mathOcc query.data with
  | some run =>
      [("code", .vStr (mathExprCode ⟨pyStrip run⟩))]
  | none =>
      let numbers := digitRuns query.data
      if numbers.length ≥ 2 then
        [("code", .vStr (sumNumbersCode (numbers.map (⟨·⟩))))]
      else
        [("code", .vStr ("print(" ++ "\x27" ++ "无法识别的计算任务: " ++ query ++ "\x27" ++ ")"))]

/-- Embedding of `FastPlanner._extract_calc_params`.  The sum-indicating keyword test runs
on the original (not lowercased) query, as in the source. -/
def extractCalcParams (query : String) (_ctx : Ctx) : Dict :=
  match rangeOcc query.data with
  | some (d1, d2) =>
      if ["和", "求和", "sum", "加"].any (fun k => strContains query k) then
        [("code", .vStr (rangeSumCode ⟨d1⟩ ⟨d2⟩))]
      else
        extractCalcParamsRest query
  | none => extractCalcParamsRest query

/-- The filename-extension alternatives of the filename regex in
`_extract_file_params`, in alternation order. -/
def fileExtAlts : List String := ["csv", "txt", "json", "xlsx", "pdf", "docx", "doc"]

/-- Characters of the regex class `[a-zA-Z0-9_\-]`. -/
def isFnameChar (c : Char) : Bool :=
  ('a' ≤ c && c ≤ 'z') || ('A' ≤ c && c ≤ 'Z') || isDigitChar c || c = '_' || c = '-'

/-- Longest run of filename characters at the head of the list, with the
remainder. -/
def fnameRun : List Char → List Char × List Char
  | [] => ([], [])
  | c :: rest =>
      if isFnameChar c then
        let (run, rem) := fnameRun rest
        (c :: run, rem)
      else ([], c :: rest)

/-- Try to match `[a-zA-Z0-9_\-]+\.(csv|txt|json|xlsx|pdf|docx|doc)` at the
head of the list, returning the whole match. -/
def fnameHere (l : List Char) : Option (List Char) :=
  match fnameRun l with
  | ([], _) => none
  | (run@(_ :: _), rem) =>
      match rem with
      | '.' :: rem2 =>
          match fileExtAlts.find? (fun e => listHasPre e.data rem2) with
          | some e => some (run ++ '.' :: e.data)
          | none => none
      | _ => none

/-- Model of `re.search` for the filename regex: leftmost match. -/
def fnameOcc : List Char → Option (List Char)
  | [] => none
  | l@(_ :: rest) =>
      match fnameHere l with
      | some r => some r
      | none => fnameOcc rest

/-- Embedding of `FastPlanner._extract_file_params`. -/
def extractFileParams (query : String) (ctx : Ctx) : Dict :=
  let filePath : Option String :=
    match ctx.uploaded_files.head? with
    | some f => some f
    | none =>
        match fnameOcc query.data with
        | some m => some ("data/uploads/" ++ (⟨m⟩ : String))
        | none => none
  let operation : String :=
    match filePath with
    | some _ =>
        if ["保存", "写入", "write"].any (fun w => strContains query w) then "write"
        else "read"
    | none =>
        if ["读取", "打开", "查看", "read"].any (fun w => strContains query w) then "read"
        else if ["保存", "写入", "write"].any (fun w => strContains query w) then "write"
        else "list"
  [("operation", .vStr operation),
   ("file_path", .vStr (filePath.getD "data/temp.txt"))]

/-- The pandas snippet emitted by `_extract_analysis_params` (after the
f-string's leading/trailing newlines are stripped); `None` interpolates as
the string "None". -/
def analysisCode (filePath : Option String) : String :=
  "import pandas as pd\n" ++
  "df = pd.read_csv(" ++ "\x27" ++ (filePath.getD "None") ++ "\x27" ++ ")\n" ++
  "print(df.describe())\n" ++
  "print(df.head())"

/-- Embedding of `FastPlanner._extract_analysis_params`. -/
def extractAnalysisParams (_query : String) (ctx : Ctx) : Dict :=
  [("code", .vStr (analysisCode ctx.uploaded_files.head?))]

/-- Dispatch through the `param_extractors` table (missing intents yield an
empty dict via the default `lambda q, c: {}`). -/
def extractParams (intent : Intent) (query : String) (ctx : Ctx) : Dict :=
  match intent with
  | .search => extractSearchParams query ctx
  | .calculate => extractCalcParams query ctx
  | .fileOp => extractFileParams query ctx
  | .dataAnalysis => extractAnalysisParams query ctx
  | _ => []

/-- The image files among the uploads (`_decompose_tasks`). -/
def imageFiles (ctx : Ctx) : List String :=
  ctx.uploaded_files.filter isImageFile

/-- The query with upload annotations removed and stripped
(`clean_query` in `_decompose_tasks`). -/
def cleanQuery (query : String) : String :=
  ⟨pyStrip (removeFileAnnotations query.data)⟩

/-- One vision-analysis task per uploaded image (`_decompose_tasks`);
`question` is `None` when the cleaned query is empty (falsy). -/
def mkVisionTasks (query : String) : List String → Nat → List Task
  | [], _ => []
  | img :: rest, k =>
      { id := taskId k, intent := .fileOp, tool := "vision_analysis",
        params := [("image_path", .vStr img),
                   ("question", if cleanQuery query = "" then .vNone else .vStr (cleanQuery query))],
        dependencies := [], priority := 1, estimated_time_ms := 8000 }
        :: mkVisionTasks query rest (k + 1)

/-- The per-intent task creation loop of `_decompose_tasks`: skips
`SIMPLE_QA`, skips `FILE_OP` when an image task was already created, skips
intents without a mapped tool; the id counter advances only when a task is
created. -/
def mkIntentTasks (query : String) (ctx : Ctx) (hasImages : Bool) :
    List Intent → Nat → List Task
  | [], _ => []
  | i :: rest, k =>
      if i = .simpleQA then mkIntentTasks query ctx hasImages rest k
      else if i = .fileOp && hasImages then mkIntentTasks query ctx hasImages rest k
      else
        match intentTool i with
        | none => mkIntentTasks query ctx hasImages rest k
        | some tool =>
            { id := taskId k, intent := i, tool := tool,
              params := extractParams i query ctx,
              dependencies := [], priority := getPriority i,
              estimated_time_ms := estimateTaskTime tool }
              :: mkIntentTasks query ctx hasImages rest (k + 1)

/-- Embedding of `FastPlanner._decompose_tasks`. -/
def decomposeTasks (query : String) (intents : List Intent) (ctx : Ctx) : List Task :=
  let imgs := imageFiles ctx
  let visionTasks := mkVisionTasks query imgs 0
  visionTasks ++ mkIntentTasks query ctx (!imgs.isEmpty) intents visionTasks.length

/-- The per-task update of `_analyze_dependencies`: a `DATA_ANALYSIS` task
gains a dependency on every `FILE_OP` task of the plan with a different
id. -/
def analyzeOne (tasks : List Task) (t : Task) : Task :=
  if t.intent = .dataAnalysis then
    { t with dependencies :=
        t.dependencies ++
        ((tasks.filter (fun o => o.intent = .fileOp && o.id ≠ t.id)).map (·.id)) }
  else t

/-- Embedding of `FastPlanner._analyze_dependencies`.  The Python code mutates each
task's `dependencies` set in place; membership-equivalent functional
model. -/
def analyzeDependencies (tasks : List Task) : List Task :=
  tasks.map (analyzeOne tasks)

/-- Embedding of `{t.id: t for t in tasks}` lookup: on duplicate ids the last task wins,
as for a Python dict comprehension. -/
def taskDict (tasks : List Task) (tid : String) : Option Task :=
  tasks.reverse.find? (fun t => t.id = tid)

/-- Helper for `dedupKeys`: keeps the first occurrence of each key,
remembering already-seen keys. -/
def dedupKeysAux : List String → List String → List String
  | [], _ => []
  | x :: rest, seen =>
      if seen.contains x then dedupKeysAux rest seen
      else x :: dedupKeysAux rest (x :: seen)

/-- Keys of `{t.id: t for t in tasks}` in insertion order (first occurrence
kept). -/
def dedupKeys (l : List String) : List String := dedupKeysAux l []

/-- Dependencies of the task registered under `tid` (empty when absent). -/
def depsOfId (tasks : List Task) (tid : String) : List String :=
  match taskDict tasks tid with
  | some t => t.dependencies
  | none => []

/-- Priority of the task registered under `tid` (`0` when absent; the
scheduler only sorts ids that are dict keys). -/
def prioOfId (tasks : List Task) (tid : String) : Nat :=
  match taskDict tasks tid with
  | some t => t.priority
  | none => 0

/-- The ready filter of one scheduling round: a task is ready when every
dependency is a known task id outside `remaining` (i.e. in `completed =
keys - remaining`). -/
def readyFilter (tasks : List Task) (keys remaining : List String) : List String :=
  remaining.filter
    (fun tid => (depsOfId tasks tid).all (fun d => keys.contains d && !remaining.contains d))

/-- Stable insertion of `x` into a list sorted by descending priority:
`x` goes after every element of strictly-or-equally high priority. -/
def insertDesc (p : String → Nat) (x : String) : List String → List String
  | [] => [x]
  | y :: ys => if p y < p x then x :: y :: ys else y :: insertDesc p x ys

/-- Stable sort by descending priority, modelling
`ready.sort(key=..., reverse=True)`. -/
def sortDesc (p : String → Nat) : List String → List String
  | [] => []
  | x :: xs => insertDesc p x (sortDesc p xs)

/-- The scheduling loop of `_schedule_tasks`: repeatedly emit the
priority-sorted ready set (or, if none is ready, all remaining ids — the
forced cycle-breaking batch) and remove it from `remaining`.  `fuel` bounds
the number of loop iterations; every iteration removes at least one id from
`remaining` (the emitted set is nonempty and drawn from `remaining`), so
`fuel = remaining.length` as used by `scheduleTasks` always suffices — the
partition theorem below confirms that the loop drains `remaining`
completely within this bound. -/
def scheduleAux (tasks : List Task) (keys : List String) :
    Nat → List String → List (List String)
  | 0, _ => []
  | fuel + 1, remaining =>
      if remaining.isEmpty then []
      else
        let ready0 := readyFilter tasks keys remaining
        let ready1 := if ready0.isEmpty then remaining else ready0
        sortDesc (prioOfId tasks) ready1 ::
          scheduleAux tasks keys fuel (remaining.filter (fun tid => !ready1.contains tid))

/-- Embedding of `FastPlanner._schedule_tasks`. -/
def scheduleTasks (tasks : List Task) : List (List String) :=
  if tasks.isEmpty then []
  else
    let keys := dedupKeys (tasks.map (·.id))
    scheduleAux tasks keys keys.length keys

/-- Embedding of `FastPlanner._estimate_total_time`: sum over batches of the maximal
per-task estimate in the batch. -/
def estimateTotalTime (batches : List (List String)) (tasks : List Task) : Nat :=
  (batches.map (fun b =>
    ((b.map (fun tid => match taskDict tasks tid with
                        | some t => t.estimated_time_ms
                        | none => 0)).max?).getD 0)).sum

/-- Embedding of `FastPlanner._needs_polish`: unconditionally true. -/
def needsPolish (_intents : List Intent) : Bool := true

/-- Embedding of `FastPlanner.plan`, with the two wall-clock readings (`time.time()` at
entry and at exit) passed explicitly.  They feed only the printed latency
line, so they are discarded; every other step is the deterministic pipeline
classify → decompose → analyze dependencies → schedule → estimate. -/
def planWithClock (startTime endTime : Nat) (query : String) (ctx : Ctx) : ExecutionPlan :=
  let _elapsedMs := (endTime - startTime) * 1000
  let intents := classifyIntent query ctx
  let tasks := analyzeDependencies (decomposeTasks query intents ctx)
  let batches := scheduleTasks tasks
  { tasks := tasks,
    parallel_batches := batches,
    total_estimated_ms := estimateTotalTime batches tasks,
    requires_llm_polish := needsPolish intents }

/-- Embedding of `FastPlanner.plan` at a fixed (irrelevant) clock. -/
def plan (query : String) (ctx : Ctx) : ExecutionPlan :=
  planWithClock 0 0 query ctx

/-! ### Parallel executor (`parallel_executor.py`) -/

/-- The `ToolResult` dataclass.  `output` is `None` (here `PyVal.vNone`) on
every failure path of the executor. -/
structure ToolResult where
  task_id : String
  tool : String
  success : Bool
  output : PyVal
  error : Option String := none
  elapsed_ms : Nat := 0
deriving DecidableEq

/-- The module-level timeout constants. -/
def DEFAULT_TIMEOUT : Nat := 60

/-- Search-task timeout (seconds). -/
def SEARCH_TIMEOUT : Nat := 30

/-- File/data-analysis-task timeout (seconds). -/
def FILE_TIMEOUT : Nat := 10

/-- Embedding of `ParallelExecutor._get_timeout` (the executor's `default_timeout` is a
constructor argument, `DEFAULT_TIMEOUT` for the module singleton). -/
def getTimeout (defaultTimeout : Nat) (task : Task) : Nat :=
  if task.intent = .search then SEARCH_TIMEOUT
  else if task.intent = .fileOp || task.intent = .dataAnalysis then FILE_TIMEOUT
  else defaultTimeout

/-- Abstraction of the filesystem operations used by `_resolve_params`:
`Path(s)` construction (including its textual normalization, `mkPath`),
existence, `Path.resolve()`, and `Path.is_absolute()`.  The claims proved
below hold for every filesystem behaviour. -/
structure FS where
  mkPath : String → String
  pathExists : String → Bool
  resolve : String → String
  isAbs : String → Bool

/-- The `image_path` normalization of `_resolve_params`: strip quotes, build
a `Path`, and resolve it when it does not exist (warnings are log-only). -/
def normalizeImagePath (fs : FS) (s : String) : String :=
  let p0 := fs.mkPath (stripQuotes s)
  if fs.pathExists p0 then p0 else fs.resolve p0

/-- The `file_path` normalization of `_resolve_params`: the absolute and
relative branches of the source perform the same strip/exists/resolve
steps. -/
def normalizeFilePath (fs : FS) (s : String) : String :=
  let p0 := fs.mkPath (stripQuotes s)
  if fs.isAbs p0 then
    (if fs.pathExists p0 then p0 else fs.resolve p0)
  else
    (if fs.pathExists p0 then p0 else fs.resolve p0)

/-- The cumulative result map of one plan execution (`task_id → ToolResult`,
a Python dict). -/
abbrev ResultMap := StrMap ToolResult

/-- Path handling of `_resolve_params` on the copied params dict: rewrite
`image_path` and `file_path` when they hold strings. -/
def processPaths (fs : FS) (params : Dict) : Dict :=
  let params : Dict :=
    match alGet params "image_path" with
    | some (.vStr s) => alSet params "image_path" (.vStr (normalizeImagePath fs s))
    | _ => params
  match alGet params "file_path" with
  | some (.vStr s) => alSet params "file_path" (.vStr (normalizeFilePath fs s))
  | _ => params

/-- Dependency injection of `_resolve_params`: for each dependency with a
successful recorded result, inject its output under `data` for
`DATA_ANALYSIS` tasks, or under `content` for `FILE_OP` tasks whose declared
operation is `write`. -/
def injectDeps (task : Task) (previousResults : ResultMap) (params : Dict) : Dict :=
  task.dependencies.foldl
    (fun ps depId =>
      match alGet previousResults depId with
      | some r =>
          if r.success then
            if task.intent = .dataAnalysis then alSet ps "data" r.output
            else if task.intent = .fileOp then
              (if alGet task.params "operation" = some (.vStr "write") then
                 alSet ps "content" r.output
               else ps)
            else ps
          else ps
      | none => ps)
    params

/-- Embedding of `ParallelExecutor._resolve_params`: operates on a copy of
`task.params` (value semantics here; the reference-level model below makes
the copy explicit), then normalizes paths and injects dependency outputs. -/
def resolveParams (fs : FS) (task : Task) (previousResults : ResultMap) : Dict :=
  injectDeps task previousResults (processPaths fs task.params)

/-- Observable behaviour of one tool invocation: its wall-clock duration (in
milliseconds, reproduced by the executor's elapsed-time measurement) and
either a returned value or a raised exception (type name and message,
where Python's `str(e)` is the message). -/
inductive ToolOutcome where
  | ok (durationMs : Nat) (value : PyVal)
  | exn (durationMs : Nat) (excType : String) (excMsg : String)
deriving DecidableEq

/-- The tool registry: a name → callable map (`tools.registry`). -/
def Registry : Type := String → Option (Dict → ToolOutcome)

/-- Embedding of `ParallelExecutor._execute_task`: registry miss gives an immediate
failure; a raised exception is caught and recorded as `error=str(e)`; a
normal return is recorded as a success with the measured elapsed time. -/
def executeTask (fs : FS) (reg : Registry) (task : Task) (previousResults : ResultMap) :
    ToolResult :=
  match reg task.tool with
  | none =>
      { task_id := task.id, tool := task.tool, success := false,
        output := .vNone, error := some ("工具 " ++ task.tool ++ " 未找到"),
        elapsed_ms := 0 }
  | some toolFun =>
      match toolFun (resolveParams fs task previousResults) with
      | .ok d v =>
          { task_id := task.id, tool := task.tool, success := true,
            output := v, error := none, elapsed_ms := d }
      | .exn d _ty msg =>
          { task_id := task.id, tool := task.tool, success := false,
            output := .vNone, error := some msg, elapsed_ms := d }

/-- The `ToolResult` built by the `except TimeoutError` handler of
`_execute_batch`. -/
def timeoutResult (task : Task) (timeoutS : Nat) : ToolResult :=
  { task_id := task.id, tool := task.tool, success := false,
    output := .vNone, error := some ("任务超时 (" ++ Nat.repr timeoutS ++ "秒)"),
    elapsed_ms := timeoutS * 1000 }

/-- Model of `future.result(timeout=...)` as used in `_execute_batch`:
returns the result when the future has already completed at the moment of
the call, and raises `TimeoutError` (modelled by the timeout branch)
otherwise. -/
def futureResult (doneAtCall : Bool) (res : ToolResult) (task : Task) (timeoutS : Nat) :
    ToolResult :=
  if doneAtCall then res else timeoutResult task timeoutS

/-- Embedding of `ParallelExecutor._execute_batch`.  Each submitted future runs
`_execute_task` to completion; `as_completed` is called without a timeout
argument, so it blocks until each future has completed and yields only
completed futures — therefore every `future.result(timeout=...)` call
receives `doneAtCall = true`, making the `except TimeoutError` handler
unreachable whatever the tool's duration.  The `except Exception` handler is
likewise unreachable because `_execute_task` catches all exceptions
internally.  Worker-pool interleaving only affects the dict insertion order
of `results`, which is keyed by unique task ids; completion order is
modelled as submission order. -/
def executeBatch (fs : FS) (reg : Registry) (tasks : List Task)
    (previousResults : ResultMap) : ResultMap :=
  tasks.foldl
    (fun results task =>
      let res := executeTask fs reg task previousResults
      alSet results task.id (futureResult true res task (getTimeout DEFAULT_TIMEOUT task)))
    []

/-- Embedding of `ParallelExecutor.execute`: run the batches in order, merging each
batch's results into the cumulative map that later batches read. -/
def executePlan (fs : FS) (reg : Registry) (p : ExecutionPlan) : ResultMap :=
  p.parallel_batches.foldl
    (fun results batch =>
      alUpdate results
        (executeBatch fs reg (p.tasks.filter (fun t => batch.contains t.id)) results))
    []

/-! ### Result polisher fallback (`result_polisher.py`) -/

/-- Python `"\n".join(lines)`. -/
def joinNL : List String → String
  | [] => ""
  | [s] => s
  | s :: rest => s ++ "\n" ++ joinNL rest

/-- The fixed failure message of `_fallback_format` when no result
succeeded. -/
def failMessage (userQuery : String) : String :=
  "❌ 任务执行失败\n\n问题: " ++ userQuery ++ "\n\n请检查工具配置或重试。"

/-- The per-result lines of the multi-result branch of `_fallback_format`
(`i` counts from 1; outputs over 500 characters are truncated). -/
def multiLines : Nat → List ToolResult → List String
  | _, [] => []
  | i, r :: rest =>
      let output := pyStr r.output
      let output :=
        if output.data.length > 500 then ⟨output.data.take 500⟩ ++ "...(已截断)" else output
      ("**步骤 " ++ Nat.repr i ++ " (" ++ r.tool ++ ")**:") :: (output ++ "\n") ::
        multiLines (i + 1) rest

/-- Embedding of `ResultPolisher._fallback_format`.  `results.values()` is the insertion
order of the result map. -/
def fallbackFormat (userQuery : String) (results : ResultMap) : String :=
  let successResults := (results.map (·.2)).filter (·.success)
  match successResults with
  | [] => failMessage userQuery
  | [r] =>
      let output := pyStr r.output
      if output.data.length < 500 && !((output.data.take 100).contains '\n') then output
      else "**" ++ r.tool ++ " 执行结果**:\n\n" ++ output
  | _ =>
      joinNL (("**问题**: " ++ userQuery ++ "\n") :: multiLines 1 successResults)

/-! ### Semantics of the generated calculation code -/

/-- Python `sum(range(a, b))`. -/
def pySumRange (a b : Nat) : Nat := ((List.range' a (b - a)).map id).sum

/-- Modelled output of executing the code emitted by the range-sum branch of
`_extract_calc_params` for captured bounds `s`, `e`:
`result = sum(range(s, e+1)); print(f"{s} 到 {e} 的和是: {result}")`. -/
def runRangeSumCode (s e : Nat) : String :=
  Nat.repr s ++ " 到 " ++ Nat.repr e ++ " 的和是: " ++ Nat.repr (pySumRange s (e + 1))

/-! ### Reference-level executor model (explicit dict store, for the
no-mutation property of `execute`) -/

/-- A task whose `params` dict is held by reference into a store, exactly as
Python objects reference their dicts. -/
structure TaskR where
  id : String
  intent : Intent
  tool : String
  paramsRef : Nat
  dependencies : List String
  priority : Nat
  estimated_time_ms : Nat
deriving DecidableEq

/-- The store of live parameter dicts; an address is an index. -/
abbrev Store := List Dict

/-- Read the dict at an address. -/
def storeRead (σ : Store) (r : Nat) : Dict := σ.getD r []

/-- Allocate a fresh dict (models `task.params.copy()` creating a new
object). -/
def storeAlloc (σ : Store) (d : Dict) : Store × Nat := (σ ++ [d], σ.length)

/-- In-place `params[key] = value` on the dict at address `r`. -/
def storeSet (σ : Store) (r : Nat) (key : String) (v : PyVal) : Store :=
  σ.set r (alSet (storeRead σ r) key v)

/-- Embedding of `_resolve_params` at the reference level: copy `task.params` into a
fresh dict, then perform every assignment on the copy.  Returns the final
store and the address of the resolved dict. -/
def resolveParamsR (fs : FS) (σ : Store) (task : TaskR) (previousResults : ResultMap) :
    Store × Nat :=
  let (σ1, r) := storeAlloc σ (storeRead σ task.paramsRef)
  let σ2 : Store :=
    match alGet (storeRead σ1 r) "image_path" with
    | some (.vStr s) => storeSet σ1 r "image_path" (.vStr (normalizeImagePath fs s))
    | _ => σ1
  let σ3 : Store :=
    match alGet (storeRead σ2 r) "file_path" with
    | some (.vStr s) => storeSet σ2 r "file_path" (.vStr (normalizeFilePath fs s))
    | _ => σ2
  let σ4 : Store :=
    task.dependencies.foldl
      (fun σ depId =>
        match alGet previousResults depId with
        | some res =>
            if res.success then
              if task.intent = .dataAnalysis then storeSet σ r "data" res.output
              else if task.intent = .fileOp then
                (if alGet (storeRead σ task.paramsRef) "operation" = some (.vStr "write") then
                   storeSet σ r "content" res.output
                 else σ)
              else σ
            else σ
        | none => σ)
      σ3
  (σ4, r)

/-- Embedding of `_get_timeout` for reference-level tasks. -/
def getTimeoutR (defaultTimeout : Nat) (task : TaskR) : Nat :=
  if task.intent = .search then SEARCH_TIMEOUT
  else if task.intent = .fileOp || task.intent = .dataAnalysis then FILE_TIMEOUT
  else defaultTimeout

/-- The `except TimeoutError` result for reference-level tasks. -/
def timeoutResultR (task : TaskR) (timeoutS : Nat) : ToolResult :=
  { task_id := task.id, tool := task.tool, success := false,
    output := .vNone, error := some ("任务超时 (" ++ Nat.repr timeoutS ++ "秒)"),
    elapsed_ms := timeoutS * 1000 }

/-- Embedding of `future.result(timeout=...)` for reference-level tasks (see
`futureResult`). -/
def futureResultR (doneAtCall : Bool) (res : ToolResult) (task : TaskR) (timeoutS : Nat) :
    ToolResult :=
  if doneAtCall then res else timeoutResultR task timeoutS

/-- Embedding of `_execute_task` at the reference level: resolve the parameters (the
copy aside, the task object itself is only read), call the tool on the
resolved dict, build the `ToolResult`. -/
def executeTaskR (fs : FS) (reg : Registry) (σ : Store) (task : TaskR)
    (previousResults : ResultMap) : Store × ToolResult :=
  match reg task.tool with
  | none =>
      (σ, { task_id := task.id, tool := task.tool, success := false,
            output := .vNone, error := some ("工具 " ++ task.tool ++ " 未找到"),
            elapsed_ms := 0 })
  | some toolFun =>
      let (σ', r) := resolveParamsR fs σ task previousResults
      match toolFun (storeRead σ' r) with
      | .ok d v =>
          (σ', { task_id := task.id, tool := task.tool, success := true,
                 output := v, error := none, elapsed_ms := d })
      | .exn d _ty msg =>
          (σ', { task_id := task.id, tool := task.tool, success := false,
                 output := .vNone, error := some msg, elapsed_ms := d })

/-- The task loop of `_execute_batch` at the reference level, with an
explicit accumulator (store and partial result map). -/
def executeBatchRAux (fs : FS) (reg : Registry) (previousResults : ResultMap) :
    List TaskR → Store × ResultMap → Store × ResultMap
  | [], acc => acc
  | task :: rest, acc =>
      let (σ', res) := executeTaskR fs reg acc.1 task previousResults
      executeBatchRAux fs reg previousResults rest
        (σ', alSet acc.2 task.id
          (futureResultR true res task (getTimeoutR DEFAULT_TIMEOUT task)))

/-- Embedding of `_execute_batch` at the reference level. -/
def executeBatchR (fs : FS) (reg : Registry) (σ : Store) (tasks : List TaskR)
    (previousResults : ResultMap) : Store × ResultMap :=
  executeBatchRAux fs reg previousResults tasks (σ, [])

/-- The batch loop of `execute` at the reference level, with an explicit
accumulator. -/
def executePlanRAux (fs : FS) (reg : Registry) (tasks : List TaskR) :
    List (List String) → Store × ResultMap → Store × ResultMap
  | [], acc => acc
  | batch :: rest, acc =>
      let (σ', newResults) :=
        executeBatchR fs reg acc.1 (tasks.filter (fun t => batch.contains t.id)) acc.2
      executePlanRAux fs reg tasks rest (σ', alUpdate acc.2 newResults)

/-- Embedding of `ParallelExecutor.execute` at the reference level. -/
def executePlanR (fs : FS) (reg : Registry) (σ : Store) (tasks : List TaskR)
    (batches : List (List String)) : Store × ResultMap :=
  executePlanRAux fs reg tasks batches (σ, [])

/-- Numeric value of a list of decimal digit characters (used to show that
`Nat.repr` is injective, hence that generated task ids are distinct). -/
def decDigitsVal (l : List Char) : Nat :=
  l.foldl (fun a c => 10 * a + (c.toNat - 48)) 0

/-! ## Theorems -/

/-! ### Decimal representation: `Nat.repr` is injective -/

theorem toDigitsCore_acc (b : Nat) :
    ∀ (fuel n : Nat) (acc : List Char),
      Nat.toDigitsCore b fuel n acc = Nat.toDigitsCore b fuel n [] ++ acc := by
  intro fuel
  induction fuel with
  | zero => intro n acc; simp [Nat.toDigitsCore]
  | succ fuel ih =>
    intro n acc
    simp only [Nat.toDigitsCore]
    by_cases h : n / b = 0
    · simp [h]
    · simp only [h, if_false]
      rw [ih (n / b) (Nat.digitChar (n % b) :: acc), ih (n / b) [Nat.digitChar (n % b)]]
      simp

theorem toDigitsCore_fuel :
    ∀ (n f1 f2 : Nat), n < f1 → n < f2 →
      Nat.toDigitsCore 10 f1 n [] = Nat.toDigitsCore 10 f2 n [] := by
  intro n
  induction n using Nat.strong_induction_on with
  | _ n ih =>
    intro f1 f2 h1 h2
    cases f1 with
    | zero => omega
    | succ f1 =>
      cases f2 with
      | zero => omega
      | succ f2 =>
        simp only [Nat.toDigitsCore]
        by_cases h : n / 10 = 0
        · simp [h]
        · simp only [h, if_false]
          rw [toDigitsCore_acc 10 f1 (n / 10), toDigitsCore_acc 10 f2 (n / 10)]
          have hdiv : n / 10 < n := Nat.div_lt_self (by omega) (by omega)
          rw [ih (n / 10) hdiv f1 f2 (by omega) (by omega)]

theorem digitChar_toNat (d : Nat) (hd : d < 10) : (Nat.digitChar d).toNat = 48 + d := by
  interval_cases d <;> rfl

theorem decDigitsVal_append (l : List Char) (c : Char) :
    decDigitsVal (l ++ [c]) = 10 * decDigitsVal l + (c.toNat - 48) := by
  simp [decDigitsVal, List.foldl_append]

theorem decDigitsVal_toDigits (n : Nat) : decDigitsVal (Nat.toDigits 10 n) = n := by
  induction n using Nat.strong_induction_on with
  | _ n ih =>
    show decDigitsVal (Nat.toDigitsCore 10 (n + 1) n []) = n
    simp only [Nat.toDigitsCore]
    by_cases h : n / 10 = 0
    · have hn : n < 10 := by omega
      have hmod : n % 10 = n := Nat.mod_eq_of_lt hn
      simp [h, decDigitsVal, hmod, digitChar_toNat n hn]
    · simp only [h, if_false]
      rw [toDigitsCore_acc 10 n (n / 10)]
      have hdiv : n / 10 < n := Nat.div_lt_self (by omega) (by omega)
      have hfuel : Nat.toDigitsCore 10 n (n / 10) [] = Nat.toDigits 10 (n / 10) := by
        show _ = Nat.toDigitsCore 10 (n / 10 + 1) (n / 10) []
        exact toDigitsCore_fuel (n / 10) n (n / 10 + 1) (by omega) (by omega)
      rw [hfuel, decDigitsVal_append, ih (n / 10) hdiv,
        digitChar_toNat (n % 10) (Nat.mod_lt n (by omega))]
      omega

theorem natRepr_injective : Function.Injective Nat.repr := by
  intro a b h
  have hdata : (Nat.toDigits 10 a) = (Nat.toDigits 10 b) := by
    have : (Nat.repr a).data = (Nat.repr b).data := by rw [h]
    exact this
  have := congrArg decDigitsVal hdata
  rwa [decDigitsVal_toDigits, decDigitsVal_toDigits] at this

/-! ### Scheduler lemmas -/

theorem containsIffMem (l : List String) (x : String) : l.contains x = true ↔ x ∈ l := by
  simp

theorem insertDesc_perm (p : String → Nat) (x : String) (l : List String) :
    (insertDesc p x l).Perm (x :: l) := by
  induction l with
  | nil => simp [insertDesc]
  | cons y ys ih =>
    simp only [insertDesc]
    split
    · exact List.Perm.refl _
    · exact (List.Perm.cons y ih).trans (List.Perm.swap x y ys)

theorem sortDesc_perm (p : String → Nat) (l : List String) :
    (sortDesc p l).Perm l := by
  induction l with
  | nil => exact List.Perm.refl _
  | cons x xs ih =>
    exact (insertDesc_perm p x (sortDesc p xs)).trans (List.Perm.cons x ih)

theorem mem_sortDesc (p : String → Nat) (l : List String) (x : String) :
    x ∈ sortDesc p l ↔ x ∈ l :=
  (sortDesc_perm p l).mem_iff

theorem sortDesc_nodup (p : String → Nat) (l : List String) (h : l.Nodup) :
    (sortDesc p l).Nodup :=
  ((sortDesc_perm p l).nodup_iff).2 h

theorem length_filter_lt_of_exists (p : String → Bool) (l : List String)
    (h : ∃ x ∈ l, p x = false) : (l.filter p).length < l.length := by
  induction l with
  | nil => rcases h with ⟨x, hx, _⟩; simp at hx
  | cons a as ih =>
    rcases h with ⟨x, hx, hpx⟩
    by_cases ha : p a = true
    · rcases List.mem_cons.1 hx with rfl | hx'
      · rw [ha] at hpx; cases hpx
      · have := ih ⟨x, hx', hpx⟩
        simp only [List.filter_cons, ha, if_true, List.length_cons]
        omega
    · have hle := List.length_filter_le p as
      simp only [List.filter_cons, Bool.not_eq_true] at ha
      simp only [List.filter_cons, ha, List.length_cons]
      simp only [Bool.false_eq_true, if_false]
      omega

theorem nodup_split_perm (l sub : List String) (hl : l.Nodup) (hs : sub.Nodup)
    (hsub : ∀ x ∈ sub, x ∈ l) :
    (sub ++ l.filter (fun x => !sub.contains x)).Perm l := by
  have hfn : (l.filter (fun x => !sub.contains x)).Nodup := hl.filter _
  have hdisj : sub.Disjoint (l.filter (fun x => !sub.contains x)) := by
    intro x hx1 hx2
    have := List.of_mem_filter hx2
    simp only [Bool.not_eq_true'] at this
    rw [← containsIffMem sub x] at hx1
    rw [this] at hx1
    cases hx1
  have hnd : (sub ++ l.filter (fun x => !sub.contains x)).Nodup :=
    List.Nodup.append hs hfn hdisj
  refine (List.perm_ext_iff_of_nodup hnd hl).2 ?_
  intro a
  constructor
  · intro ha
    rcases List.mem_append.1 ha with h | h
    · exact hsub a h
    · exact List.mem_of_mem_filter h
  · intro ha
    by_cases hm : a ∈ sub
    · exact List.mem_append.2 (Or.inl hm)
    · refine List.mem_append.2 (Or.inr (List.mem_filter.2 ⟨ha, ?_⟩))
      simp only [Bool.not_eq_true']
      rw [← Bool.not_eq_true, containsIffMem]
      exact hm

theorem scheduleAux_flatten_perm (tasks : List Task) (keys : List String) :
    ∀ (fuel : Nat) (remaining : List String), remaining.Nodup →
      remaining.length ≤ fuel →
      ((scheduleAux tasks keys fuel remaining).flatten).Perm remaining := by
  intro fuel
  induction fuel with
  | zero =>
    intro remaining _ hlen
    have : remaining = [] := List.eq_nil_of_length_eq_zero (by omega)
    subst this
    simp [scheduleAux]
  | succ fuel ih =>
    intro remaining hnd hlen
    by_cases hemp : remaining.isEmpty
    · have : remaining = [] := by
        cases remaining with
        | nil => rfl
        | cons a as => simp [List.isEmpty] at hemp
      subst this
      simp [scheduleAux]
    · rw [scheduleAux]
      simp only [hemp, Bool.false_eq_true, if_false]
      have hne : remaining ≠ [] := by
        intro h; subst h; simp [List.isEmpty] at hemp
      set ready0 := readyFilter tasks keys remaining with hready0
      set ready1 := if ready0.isEmpty then remaining else ready0 with hready1
      have hsub : ∀ x ∈ ready1, x ∈ remaining := by
        intro x hx
        rw [hready1] at hx
        split at hx
        · exact hx
        · exact List.mem_of_mem_filter hx
      have hr1nd : ready1.Nodup := by
        rw [hready1]
        split
        · exact hnd
        · exact hnd.filter _
      have hr1ne : ready1 ≠ [] := by
        rw [hready1]
        split
        · exact hne
        · rename_i h0
          intro h; rw [h] at h0; simp at h0
      have hdec : (remaining.filter (fun tid => !ready1.contains tid)).length <
          remaining.length := by
        apply length_filter_lt_of_exists
        cases h1 : ready1 with
        | nil => exact absurd h1 hr1ne
        | cons b bs =>
          refine ⟨b, hsub b (by rw [h1]; simp), ?_⟩
          have : ready1.contains b = true := by
            rw [containsIffMem, h1]; simp
          simp [this]
      have hfnd : (remaining.filter (fun tid => !ready1.contains tid)).Nodup :=
        hnd.filter _
      have ihflat := ih (remaining.filter (fun tid => !ready1.contains tid)) hfnd (by omega)
      simp only [List.flatten_cons]
      exact (List.Perm.append (sortDesc_perm _ _) ihflat).trans
        (nodup_split_perm remaining ready1 hnd hr1nd hsub)

theorem mem_readyFilter_iff (tasks : List Task) (keys remaining : List String) (tid : String) :
    tid ∈ readyFilter tasks keys remaining ↔
      tid ∈ remaining ∧ ∀ d ∈ depsOfId tasks tid, d ∈ keys ∧ d ∉ remaining := by
  simp only [readyFilter, List.mem_filter, List.all_eq_true, Bool.and_eq_true,
    Bool.not_eq_true', containsIffMem]
  constructor
  · rintro ⟨h1, h2⟩
    refine ⟨h1, fun d hd => ?_⟩
    have := h2 d hd
    constructor
    · exact this.1
    · intro hmem
      rw [(containsIffMem remaining d).2 hmem] at this
      cases this.2
  · rintro ⟨h1, h2⟩
    refine ⟨h1, fun d hd => ⟨(h2 d hd).1, ?_⟩⟩
    rw [← Bool.not_eq_true, containsIffMem]
    exact (h2 d hd).2

theorem scheduleAux_topo (tasks : List Task) (keys : List String)
    (Hdeps : ∀ tid ∈ keys, ∀ d ∈ depsOfId tasks tid, d ∈ keys) :
    ∀ (fuel : Nat) (remaining : List String),
      remaining.length ≤ fuel →
      (∀ x ∈ remaining, x ∈ keys) →
      (∀ S : List String, (∀ x ∈ S, x ∈ remaining) → S ≠ [] →
        ∃ tid ∈ S, ∀ d ∈ depsOfId tasks tid, d ∉ S) →
      ∀ i tid, tid ∈ (scheduleAux tasks keys fuel remaining).getD i [] →
        ∀ d ∈ depsOfId tasks tid, d ∈ remaining →
          ∃ j < i, d ∈ (scheduleAux tasks keys fuel remaining).getD j [] := by
  intro fuel
  induction fuel with
  | zero =>
    intro remaining _ _ _ i tid htid
    simp [scheduleAux, List.getD] at htid
  | succ fuel ih =>
    intro remaining hlen hsubk hsrc i tid htid d hd hdrem
    by_cases hemp : remaining.isEmpty
    · rw [scheduleAux] at htid
      simp only [hemp, if_true] at htid
      simp [List.getD] at htid
    · have hne : remaining ≠ [] := by
        intro h; subst h; simp [List.isEmpty] at hemp
      obtain ⟨t0, ht0mem, ht0src⟩ := hsrc remaining (fun x hx => hx) hne
      have ht0ready : t0 ∈ readyFilter tasks keys remaining := by
        rw [mem_readyFilter_iff]
        refine ⟨ht0mem, fun d' hd' => ⟨?_, ht0src d' hd'⟩⟩
        exact Hdeps t0 (hsubk t0 ht0mem) d' hd'
      have hready_ne : (readyFilter tasks keys remaining).isEmpty = false := by
        have := List.ne_nil_of_mem ht0ready
        cases h : readyFilter tasks keys remaining with
        | nil => exact absurd h this
        | cons a as => simp [List.isEmpty]
      rw [scheduleAux] at htid ⊢
      simp only [hemp, Bool.false_eq_true, if_false, hready_ne] at htid ⊢
      cases i with
      | zero =>
        simp only [List.getD_cons_zero] at htid
        rw [mem_sortDesc] at htid
        rw [mem_readyFilter_iff] at htid
        exact absurd hdrem (htid.2 d hd).2
      | succ i =>
        simp only [List.getD_cons_succ] at htid
        by_cases hdready : d ∈ readyFilter tasks keys remaining
        · refine ⟨0, by omega, ?_⟩
          simp only [List.getD_cons_zero]
          rw [mem_sortDesc]
          exact hdready
        · have hdnew : d ∈ remaining.filter
              (fun tid => !(readyFilter tasks keys remaining).contains tid) := by
            rw [List.mem_filter]
            refine ⟨hdrem, ?_⟩
            rw [Bool.not_eq_true', ← Bool.not_eq_true, containsIffMem]
            exact hdready
          have hdec : (remaining.filter
              (fun tid => !(readyFilter tasks keys remaining).contains tid)).length <
              remaining.length := by
            apply length_filter_lt_of_exists
            refine ⟨t0, ht0mem, ?_⟩
            have : (readyFilter tasks keys remaining).contains t0 = true :=
              (containsIffMem _ t0).2 ht0ready
            simp [this, ht0ready]
          obtain ⟨j, hj, hdj⟩ := ih
            (remaining.filter (fun tid => !(readyFilter tasks keys remaining).contains tid))
            (by omega)
            (fun x hx => hsubk x (List.mem_of_mem_filter hx))
            (fun S hS hSne => hsrc S (fun x hx => List.mem_of_mem_filter (hS x hx)) hSne)
            i tid htid d hd hdnew
          refine ⟨j + 1, by omega, ?_⟩
          simp only [List.getD_cons_succ]
          exact hdj

theorem taskId_injective : Function.Injective taskId := by
  intro a b h
  have hdata : ("task_" ++ Nat.repr a).data = ("task_" ++ Nat.repr b).data := by
    rw [show ("task_" ++ Nat.repr a) = taskId a from rfl,
        show ("task_" ++ Nat.repr b) = taskId b from rfl, h]
  rw [String.data_append, String.data_append] at hdata
  have hrepr : (Nat.repr a).data = (Nat.repr b).data :=
    List.append_cancel_left hdata
  have : Nat.repr a = Nat.repr b := by
    cases ha : Nat.repr a with
    | mk da =>
      cases hb : Nat.repr b with
      | mk db =>
        rw [ha, hb] at hrepr
        simp at hrepr
        rw [hrepr]
  exact natRepr_injective this

/-! ### Planner structural lemmas -/

theorem analyzeOne_id (tasks : List Task) (t : Task) : (analyzeOne tasks t).id = t.id := by
  unfold analyzeOne
  split <;> rfl

theorem analyzeOne_intent (tasks : List Task) (t : Task) :
    (analyzeOne tasks t).intent = t.intent := by
  unfold analyzeOne
  split <;> rfl

theorem analyze_map_id (ts : List Task) :
    (analyzeDependencies ts).map (·.id) = ts.map (·.id) := by
  unfold analyzeDependencies
  rw [List.map_map]
  apply List.map_congr_left
  intro t _
  exact analyzeOne_id ts t

theorem mkVisionTasks_ids (q : String) :
    ∀ (imgs : List String) (k : Nat),
      (mkVisionTasks q imgs k).map (·.id) = (List.range' k imgs.length).map taskId := by
  intro imgs
  induction imgs with
  | nil => intro k; simp [mkVisionTasks]
  | cons a as ih =>
    intro k
    simp only [mkVisionTasks, List.map_cons, List.length_cons, List.range', ih (k + 1)]

theorem mkIntentTasks_ids (q : String) (ctx : Ctx) (b : Bool) :
    ∀ (ints : List Intent) (k : Nat),
      (mkIntentTasks q ctx b ints k).map (·.id) =
        (List.range' k (mkIntentTasks q ctx b ints k).length).map taskId := by
  intro ints
  induction ints with
  | nil => intro k; simp [mkIntentTasks]
  | cons i rest ih =>
    intro k
    simp only [mkIntentTasks]
    split
    · exact ih k
    · split
      · exact ih k
      · cases h : intentTool i with
        | none => exact ih k
        | some tool =>
          simp only [List.map_cons, List.length_cons, List.range', ih (k + 1)]

theorem mkVisionTasks_length (q : String) (imgs : List String) (k : Nat) :
    (mkVisionTasks q imgs k).length = imgs.length := by
  have := congrArg List.length (mkVisionTasks_ids q imgs k)
  simpa using this

theorem decompose_ids (q : String) (ints : List Intent) (ctx : Ctx) :
    (decomposeTasks q ints ctx).map (·.id) =
      (List.range' 0 (decomposeTasks q ints ctx).length).map taskId := by
  unfold decomposeTasks
  simp only [List.map_append, List.length_append]
  rw [mkVisionTasks_ids, mkIntentTasks_ids, mkVisionTasks_length]
  rw [← List.map_append]
  congr 1
  have h := List.range'_append 0 (imageFiles ctx).length
    (mkIntentTasks q ctx (!(imageFiles ctx).isEmpty) ints (imageFiles ctx).length).length 1
  simp only [Nat.zero_add, Nat.one_mul] at h
  rw [h]
  congr 1
  omega

theorem decompose_ids_nodup (q : String) (ints : List Intent) (ctx : Ctx) :
    ((decomposeTasks q ints ctx).map (·.id)).Nodup := by
  rw [decompose_ids]
  exact (List.nodup_range' _ _).map taskId_injective

theorem mkVisionTasks_deps (q : String) :
    ∀ (imgs : List String) (k : Nat), ∀ t ∈ mkVisionTasks q imgs k, t.dependencies = [] := by
  intro imgs
  induction imgs with
  | nil => intro k t ht; simp [mkVisionTasks] at ht
  | cons a as ih =>
    intro k t ht
    simp only [mkVisionTasks, List.mem_cons] at ht
    rcases ht with rfl | ht
    · rfl
    · exact ih (k + 1) t ht

theorem mkIntentTasks_deps (q : String) (ctx : Ctx) (b : Bool) :
    ∀ (ints : List Intent) (k : Nat), ∀ t ∈ mkIntentTasks q ctx b ints k,
      t.dependencies = [] := by
  intro ints
  induction ints with
  | nil => intro k t ht; simp [mkIntentTasks] at ht
  | cons i rest ih =>
    intro k t ht
    simp only [mkIntentTasks] at ht
    split at ht
    · exact ih k t ht
    · split at ht
      · exact ih k t ht
      · cases h : intentTool i with
        | none => rw [h] at ht; exact ih k t ht
        | some tool =>
          rw [h] at ht
          rcases List.mem_cons.1 ht with rfl | ht'
          · rfl
          · exact ih (k + 1) t ht'

theorem decompose_deps (q : String) (ints : List Intent) (ctx : Ctx) :
    ∀ t ∈ decomposeTasks q ints ctx, t.dependencies = [] := by
  intro t ht
  unfold decomposeTasks at ht
  rcases List.mem_append.1 ht with h | h
  · exact mkVisionTasks_deps q _ _ t h
  · exact mkIntentTasks_deps q ctx _ _ _ t h

theorem find_id_of_nodup :
    ∀ (l : List Task), ((l.map (·.id)).Nodup) → ∀ t ∈ l,
      l.find? (fun s => s.id = t.id) = some t := by
  intro l
  induction l with
  | nil => intro _ t ht; simp at ht
  | cons x rest ih =>
    intro hnd t ht
    simp only [List.map_cons, List.nodup_cons] at hnd
    rcases List.mem_cons.1 ht with rfl | ht'
    · apply List.find?_cons_of_pos
      simp
    · have hne : x.id ≠ t.id := by
        intro he
        exact hnd.1 (he ▸ List.mem_map_of_mem (·.id) ht')
      rw [List.find?_cons_of_neg _ (by simp [hne])]
      exact ih hnd.2 t ht'

theorem taskDict_of_mem (tasks : List Task) (h : (tasks.map (·.id)).Nodup) :
    ∀ t ∈ tasks, taskDict tasks t.id = some t := by
  intro t ht
  unfold taskDict
  apply find_id_of_nodup
  · rw [List.map_reverse]
    exact List.nodup_reverse.2 h
  · exact List.mem_reverse.2 ht

theorem depsOfId_of_mem (tasks : List Task) (h : (tasks.map (·.id)).Nodup)
    (t : Task) (ht : t ∈ tasks) : depsOfId tasks t.id = t.dependencies := by
  unfold depsOfId
  rw [taskDict_of_mem tasks h t ht]

theorem dedupKeysAux_eq (l : List String) :
    ∀ seen, l.Nodup → (∀ x ∈ l, x ∉ seen) → dedupKeysAux l seen = l := by
  induction l with
  | nil => intro seen _ _; rfl
  | cons x rest ih =>
    intro seen hnd hno
    have hx : seen.contains x = false := by
      rw [← Bool.not_eq_true, containsIffMem]
      exact hno x (by simp)
    simp only [dedupKeysAux, hx, Bool.false_eq_true, if_false]
    congr 1
    apply ih (x :: seen) (List.nodup_cons.1 hnd).2
    intro y hy hmem
    rcases List.mem_cons.1 hmem with rfl | hmem'
    · exact (List.nodup_cons.1 hnd).1 hy
    · exact hno y (by simp [hy]) hmem'

theorem dedupKeys_eq_of_nodup (l : List String) (h : l.Nodup) : dedupKeys l = l :=
  dedupKeysAux_eq l [] h (by simp)

theorem analyzeOne_deps_DA (tasks : List Task) (t : Task) (h : t.intent = .dataAnalysis) :
    (analyzeOne tasks t).dependencies =
      t.dependencies ++
        ((tasks.filter (fun o => o.intent = .fileOp && o.id ≠ t.id)).map (·.id)) := by
  unfold analyzeOne
  rw [if_pos h]

theorem analyzeOne_deps_nonDA (tasks : List Task) (t : Task)
    (h : ¬ t.intent = .dataAnalysis) :
    (analyzeOne tasks t).dependencies = t.dependencies := by
  unfold analyzeOne
  rw [if_neg h]

/-- Structure of the analyzed plan tasks: non-analysis tasks keep their
empty dependency set, and a `DATA_ANALYSIS` task depends on exactly the ids
of the `FILE_OP` tasks of the same plan distinct from its own id. -/
theorem planTasks_struct (q : String) (ctx : Ctx) :
    ∀ t ∈ (plan q ctx).tasks,
      (t.intent ≠ .dataAnalysis → t.dependencies = []) ∧
      (∀ d, d ∈ t.dependencies ↔
        (t.intent = .dataAnalysis ∧
          ∃ o ∈ (plan q ctx).tasks, o.intent = .fileOp ∧ o.id = d ∧ o.id ≠ t.id)) := by
  intro t ht
  have hplan : (plan q ctx).tasks =
      analyzeDependencies (decomposeTasks q (classifyIntent q ctx) ctx) := rfl
  set D := decomposeTasks q (classifyIntent q ctx) ctx with hD
  rw [hplan] at ht
  unfold analyzeDependencies at ht
  obtain ⟨s, hs, rfl⟩ := List.mem_map.1 ht
  have hsdeps : s.dependencies = [] := decompose_deps q _ ctx s hs
  by_cases hDA : s.intent = .dataAnalysis
  · constructor
    · intro hne
      rw [analyzeOne_intent] at hne
      exact absurd hDA hne
    · intro d
      rw [analyzeOne_deps_DA D s hDA, hsdeps, List.nil_append]
      constructor
      · intro hd
        obtain ⟨o, ho, rfl⟩ := List.mem_map.1 hd
        have hof := List.mem_filter.1 ho
        simp only [Bool.and_eq_true, decide_eq_true_eq] at hof
        refine ⟨by rw [analyzeOne_intent]; exact hDA, analyzeOne D o, ?_, ?_, ?_, ?_⟩
        · rw [hplan]
          exact List.mem_map_of_mem (analyzeOne D) hof.1
        · rw [analyzeOne_intent]
          exact hof.2.1
        · rw [analyzeOne_id]
        · rw [analyzeOne_id, analyzeOne_id]
          exact hof.2.2
      · rintro ⟨-, o', ho', hint, hid, hne⟩
        rw [hplan] at ho'
        unfold analyzeDependencies at ho'
        obtain ⟨o, ho, rfl⟩ := List.mem_map.1 ho'
        rw [analyzeOne_intent] at hint
        rw [analyzeOne_id] at hid
        rw [analyzeOne_id, analyzeOne_id] at hne
        subst hid
        refine List.mem_map.2 ⟨o, List.mem_filter.2 ⟨ho, ?_⟩, rfl⟩
        simp only [Bool.and_eq_true, decide_eq_true_eq]
        exact ⟨hint, hne⟩
  · constructor
    · intro _
      rw [analyzeOne_deps_nonDA D s hDA]
      exact hsdeps
    · intro d
      rw [analyzeOne_deps_nonDA D s hDA, hsdeps]
      constructor
      · intro hd
        simp at hd
      · rintro ⟨hDA', -⟩
        rw [analyzeOne_intent] at hDA'
        exact absurd hDA' hDA

theorem planTasks_ids_nodup (q : String) (ctx : Ctx) :
    (((plan q ctx).tasks).map (·.id)).Nodup := by
  have hplan : (plan q ctx).tasks =
      analyzeDependencies (decomposeTasks q (classifyIntent q ctx) ctx) := rfl
  rw [hplan, analyze_map_id]
  exact decompose_ids_nodup q _ ctx

theorem plan_Hdeps (q : String) (ctx : Ctx) :
    ∀ tid ∈ (plan q ctx).tasks.map (·.id),
      ∀ d ∈ depsOfId (plan q ctx).tasks tid, d ∈ (plan q ctx).tasks.map (·.id) := by
  intro tid htid d hd
  obtain ⟨t, ht, rfl⟩ := List.mem_map.1 htid
  rw [depsOfId_of_mem _ (planTasks_ids_nodup q ctx) t ht] at hd
  obtain ⟨-, o, ho, -, hid, -⟩ := ((planTasks_struct q ctx t ht).2 d).1 hd
  exact List.mem_map.2 ⟨o, ho, hid⟩

theorem plan_Hsrc (q : String) (ctx : Ctx) :
    ∀ S : List String, (∀ x ∈ S, x ∈ (plan q ctx).tasks.map (·.id)) → S ≠ [] →
      ∃ tid ∈ S, ∀ d ∈ depsOfId (plan q ctx).tasks tid, d ∉ S := by
  intro S hS hne
  by_cases hex : ∃ tid ∈ S, depsOfId (plan q ctx).tasks tid = []
  · obtain ⟨tid, htid, hdeps⟩ := hex
    refine ⟨tid, htid, ?_⟩
    rw [hdeps]
    intro d hd
    simp at hd
  · push_neg at hex
    obtain ⟨x, hx⟩ : ∃ x, x ∈ S := by
      cases S with
      | nil => exact absurd rfl hne
      | cons a as => exact ⟨a, by simp⟩
    refine ⟨x, hx, ?_⟩
    intro d hd hdS
    obtain ⟨t, ht, htid⟩ := List.mem_map.1 (hS x hx)
    rw [← htid, depsOfId_of_mem _ (planTasks_ids_nodup q ctx) t ht] at hd
    obtain ⟨-, o, ho, hint, hid, -⟩ := ((planTasks_struct q ctx t ht).2 d).1 hd
    have hdeps_o : o.dependencies = [] :=
      (planTasks_struct q ctx o ho).1 (by rw [hint]; intro hc; cases hc)
    have hzero : depsOfId (plan q ctx).tasks d = [] := by
      rw [← hid, depsOfId_of_mem _ (planTasks_ids_nodup q ctx) o ho, hdeps_o]
    exact hex d hdS hzero

theorem scheduleTasks_eq (tasks : List Task) (hne : tasks.isEmpty = false)
    (hnd : (tasks.map (·.id)).Nodup) :
    scheduleTasks tasks =
      scheduleAux tasks (tasks.map (·.id)) (tasks.map (·.id)).length
        (tasks.map (·.id)) := by
  unfold scheduleTasks
  rw [hne]
  simp only [Bool.false_eq_true, if_false]
  rw [dedupKeys_eq_of_nodup _ hnd]

/-! ### Claim theorems -/

/-- C1: for every `ExecutionPlan` produced by `FastPlanner.plan` (whose
dependency graph is always acyclic: `DATA_ANALYSIS` tasks depend only on
`FILE_OP` tasks, which have no dependencies), `parallel_batches` is a valid
topological ordering — every dependency of a task lies in a batch of
strictly smaller index than any batch holding the task — and the batches
partition the task ids: their concatenation is a permutation of the
(duplicate-free) list of the plan's task ids, so every task id appears in
exactly one batch. -/
theorem plan_batches_topological_partition (query : String) (ctx : Ctx) :
    (((plan query ctx).tasks.map (·.id)).Nodup ∧
      ((plan query ctx).parallel_batches.flatten).Perm
        ((plan query ctx).tasks.map (·.id))) ∧
    (∀ t ∈ (plan query ctx).tasks, ∀ d ∈ t.dependencies,
      ∀ j, t.id ∈ (plan query ctx).parallel_batches.getD j [] →
        ∃ i < j, d ∈ (plan query ctx).parallel_batches.getD i []) := by
  have hN := planTasks_ids_nodup query ctx
  have hbatches : (plan query ctx).parallel_batches =
      scheduleTasks (plan query ctx).tasks := rfl
  by_cases hemp : (plan query ctx).tasks.isEmpty
  · have hnil : (plan query ctx).tasks = [] := List.isEmpty_iff.1 hemp
    have hbnil : (plan query ctx).parallel_batches = [] := by
      rw [hbatches]
      unfold scheduleTasks
      rw [hemp]
      simp
    constructor
    · refine ⟨hN, ?_⟩
      rw [hbnil, hnil]
      simp
    · intro t ht
      rw [hnil] at ht
      simp at ht
  · have hemp' : (plan query ctx).tasks.isEmpty = false := by
      cases h : (plan query ctx).tasks.isEmpty
      · rfl
      · exact absurd h hemp
    have hsched := scheduleTasks_eq (plan query ctx).tasks hemp' hN
    constructor
    · refine ⟨hN, ?_⟩
      rw [hbatches, hsched]
      exact scheduleAux_flatten_perm _ _ _ _ hN (le_refl _)
    · intro t ht d hd j htj
      rw [hbatches, hsched] at htj
      have hdrem : d ∈ (plan query ctx).tasks.map (·.id) := by
        apply plan_Hdeps query ctx t.id (List.mem_map_of_mem (·.id) ht)
        rw [depsOfId_of_mem _ hN t ht]
        exact hd
      have happ := scheduleAux_topo (plan query ctx).tasks
        ((plan query ctx).tasks.map (·.id)) (plan_Hdeps query ctx)
        ((plan query ctx).tasks.map (·.id)).length
        ((plan query ctx).tasks.map (·.id)) (le_refl _)
        (fun x hx => hx) (plan_Hsrc query ctx) j t.id htj d
        (by rw [depsOfId_of_mem _ hN t ht]; exact hd) hdrem
      obtain ⟨i, hi, hdi⟩ := happ
      refine ⟨i, hi, ?_⟩
      rw [hbatches, hsched]
      exact hdi

/-- C6: after dependency inference, every `DATA_ANALYSIS` task of a plan
depends on exactly the set of ids of the plan's `FILE_OP` tasks, and every
other task has no dependencies.  (A `DATA_ANALYSIS` task is never itself a
`FILE_OP` task and plan task ids are distinct, so the `other.id != task.id`
guard of the source excludes nothing.) -/
theorem plan_dependency_inference (q : String) (ctx : Ctx) :
    ∀ t ∈ (plan q ctx).tasks,
      (t.intent = .dataAnalysis →
        ∀ d, d ∈ t.dependencies ↔
          d ∈ (((plan q ctx).tasks.filter (fun o => o.intent = .fileOp)).map (·.id))) ∧
      (t.intent ≠ .dataAnalysis → t.dependencies = []) := by
  intro t ht
  refine ⟨?_, (planTasks_struct q ctx t ht).1⟩
  intro hDA d
  rw [(planTasks_struct q ctx t ht).2 d]
  constructor
  · rintro ⟨-, o, ho, hint, hid, -⟩
    refine List.mem_map.2 ⟨o, List.mem_filter.2 ⟨ho, by simp [hint]⟩, hid⟩
  · intro hd
    obtain ⟨o, ho, rfl⟩ := List.mem_map.1 hd
    have hof := List.mem_filter.1 ho
    have hint : o.intent = .fileOp := by simpa using hof.2
    refine ⟨hDA, o, hof.1, hint, rfl, ?_⟩
    intro he
    have heq : o = t :=
      List.inj_on_of_nodup_map (planTasks_ids_nodup q ctx) hof.1 ht he
    rw [heq, hDA] at hint
    cases hint

theorem plan_batches_topological_partition_witness :
    ∃ i < 1, "task_0" ∈ (plan "分析 数据.csv 文件" {}).parallel_batches.getD i [] :=
  (plan_batches_topological_partition "分析 数据.csv 文件" {}).2
    ((plan "分析 数据.csv 文件" {}).tasks.getD 1 default)
    (by decide) "task_0" (by decide) 1 (by decide)

theorem plan_dependency_inference_witness :
    "task_0" ∈ ((plan "分析 数据.csv 文件" {}).tasks.getD 1 default).dependencies :=
  (((plan_dependency_inference "分析 数据.csv 文件" {}
      ((plan "分析 数据.csv 文件" {}).tasks.getD 1 default)
      (by decide)).1 (by decide)) "task_0").2 (by decide)

/-- C9: `FastPlanner.plan` is deterministic — the returned `ExecutionPlan`
(tasks with their ids, intents, tools, params, dependencies, priorities and
estimates, and the parallel batches) does not depend on the wall-clock
readings, the only non-input data the planner reads; repeated calls with the
same request and context therefore produce identical plans. -/
theorem plan_deterministic (t1 t2 t1' t2' : Nat) (query : String) (ctx : Ctx) :
    planWithClock t1 t2 query ctx = planWithClock t1' t2' query ctx := rfl

/-- C4: a request matching no intent pattern, with no uploaded files, yields
a plan with zero tasks and `requires_llm_polish = true`. -/
theorem plan_no_intent_empty (query : String) (ctx : Ctx)
    (hpat : detectByPatterns ((lowerStr query).data) = [])
    (hfiles : ctx.uploaded_files = []) :
    (plan query ctx).tasks = [] ∧ (plan query ctx).requires_llm_polish = true := by
  constructor
  · show analyzeDependencies (decomposeTasks query (classifyIntent query ctx) ctx) = []
    have hclass : classifyIntent query ctx = [.simpleQA] := by
      unfold classifyIntent
      rw [hfiles]
      simp [scanUploads, hpat, List.erase]
    rw [hclass]
    have himg : imageFiles ctx = [] := by
      unfold imageFiles
      rw [hfiles]
      rfl
    unfold decomposeTasks
    rw [himg]
    simp [mkVisionTasks, mkIntentTasks, analyzeDependencies]
  · rfl

theorem plan_no_intent_empty_witness :
    detectByPatterns ((lowerStr "hello").data) = [] ∧
    (plan "hello" {}).tasks = [] ∧ (plan "hello" {}).requires_llm_polish = true :=
  ⟨by decide,
   (plan_no_intent_empty "hello" {} (by decide) rfl).1,
   (plan_no_intent_empty "hello" {} (by decide) rfl).2⟩

/-- C3 counterexample: for the request "计算 1 到 10 的平方和" the single
generated code text is the plain range-sum template `sum(range(1, 10+1))`;
executing it prints the sum 55, and "385" does not occur in its output — so
the generated code does not compute the sum of squares. -/
theorem calc_sum_of_squares_counterexample :
    (plan "计算 1 到 10 的平方和" {}).tasks.map (·.params) =
      [[("code", PyVal.vStr (rangeSumCode "1" "10"))]] ∧
    runRangeSumCode 1 10 = "1 到 10 的和是: 55" ∧
    strContains (runRangeSumCode 1 10) "385" = false :=
  ⟨rfl, rfl, rfl⟩

/-- C3 amended: the planner detects exactly the Calculate intent and emits
exactly one `code_execution` task whose generated code is the range-sum
template for 1..10; executing that code yields output containing 55 (not
385). -/
theorem calc_range_sum_amended :
    classifyIntent "计算 1 到 10 的平方和" {} = [.calculate] ∧
    (plan "计算 1 到 10 的平方和" {}).tasks.map (fun t => (t.tool, t.params)) =
      [("code_execution", [("code", PyVal.vStr (rangeSumCode "1" "10"))])] ∧
    strContains (runRangeSumCode 1 10) "55" = true :=
  ⟨by decide, rfl, rfl⟩

/-- C2: the timeout machinery is dead code.  A Search-intent task whose tool
runs for 40000 ms — beyond its configured 30 s timeout — still produces
`success = true` with `elapsed_ms = 40000` and no error, because
`as_completed` (called without a timeout) yields futures only after they
complete, so `future.result(timeout=...)` never raises.  The configured
bound itself is 30 s as specified. -/
theorem slow_search_tool_not_timed_out :
    getTimeout DEFAULT_TIMEOUT ⟨"task_0", .search, "intelligent_search", [], [], 8, 2000⟩
        = 30 ∧
    executeBatch (FS.mk id (fun _ => false) id (fun _ => false))
        (fun n => if n = "intelligent_search"
                  then some (fun _ => .ok 40000 (.vStr "done")) else none)
        [⟨"task_0", .search, "intelligent_search", [], [], 8, 2000⟩] [] =
      [("task_0", ⟨"task_0", "intelligent_search", true, .vStr "done", none, 40000⟩)] :=
  ⟨rfl, rfl⟩

/-- C7 counterexample: a tool raising `ValueError("boom")` produces
`error = "boom"` (the message alone, `str(e)`): the exception's type name
does not occur in the error field. -/
theorem exception_error_no_type_name :
    (executeTask (FS.mk id (fun _ => false) id (fun _ => false))
        (fun n => if n = "code_execution"
                  then some (fun _ => .exn 5 "ValueError" "boom") else none)
        ⟨"task_0", .codeExecute, "code_execution", [], [], 5, 1500⟩ []).error
      = some "boom" ∧
    strContains "boom" "ValueError" = false :=
  ⟨rfl, rfl⟩

/-- C7 amended: when the tool invocation raises, the executor returns a
`ToolResult` with `success = false` whose error field carries exactly the
exception's message (`str(e)`); the type name is not included. -/
theorem exception_error_message (fs : FS) (reg : Registry) (task : Task)
    (prev : ResultMap) (f : Dict → ToolOutcome) (d : Nat) (ty msg : String)
    (hreg : reg task.tool = some f)
    (hexn : f (resolveParams fs task prev) = .exn d ty msg) :
    executeTask fs reg task prev =
      { task_id := task.id, tool := task.tool, success := false,
        output := .vNone, error := some msg, elapsed_ms := d } := by
  unfold executeTask
  rw [hreg]
  simp only [hexn]

theorem exception_error_message_witness :
    executeTask (FS.mk id (fun _ => false) id (fun _ => false))
        (fun n => if n = "code_execution"
                  then some (fun _ => .exn 5 "ValueError" "boom") else none)
        ⟨"task_0", .codeExecute, "code_execution", [], [], 5, 1500⟩ [] =
      { task_id := "task_0", tool := "code_execution", success := false,
        output := .vNone, error := some "boom", elapsed_ms := 5 } :=
  exception_error_message _ _ _ _
    (fun _ => .exn 5 "ValueError" "boom") 5 "ValueError" "boom" rfl rfl

theorem alGet_alSet_self {α : Type} (d : StrMap α) (k : String) (v : α) :
    alGet (alSet d k v) k = some v := by
  induction d with
  | nil => simp [alSet, alGet]
  | cons kv rest ih =>
    obtain ⟨k', v'⟩ := kv
    by_cases h : k' = k
    · simp [alSet, alGet, h]
    · simp [alSet, alGet, h, ih]

/-- C5: dependency injection at dispatch time.  For a task `B` whose
dependency set is `{A}` and whose recorded result for `A` is present and
successful, `_resolve_params` injects `A`'s output into `B`'s resolved
parameters under `data` when `B` is a `DATA_ANALYSIS` task, and under
`content` when `B` is a `FILE_OP` task whose declared operation is
`write` — for every filesystem behaviour. -/
theorem resolve_params_injection (fs : FS) (B : Task) (prev : ResultMap)
    (aid : String) (r : ToolResult)
    (hdep : B.dependencies = [aid])
    (hres : alGet prev aid = some r)
    (hsucc : r.success = true) :
    (B.intent = .dataAnalysis →
      alGet (resolveParams fs B prev) "data" = some r.output) ∧
    (B.intent = .fileOp →
      alGet B.params "operation" = some (.vStr "write") →
      alGet (resolveParams fs B prev) "content" = some r.output) := by
  unfold resolveParams injectDeps
  rw [hdep]
  simp only [List.foldl_cons, List.foldl_nil, hres, hsucc, if_true]
  constructor
  · intro hDA
    rw [if_pos hDA]
    exact alGet_alSet_self _ _ _
  · intro hFO hop
    have hnDA : ¬ B.intent = .dataAnalysis := by
      rw [hFO]
      intro hc
      cases hc
    rw [if_neg hnDA, if_pos hFO, if_pos hop]
    exact alGet_alSet_self _ _ _

theorem resolve_params_injection_witness :
    alGet
      (resolveParams (FS.mk id (fun _ => false) id (fun _ => false))
        ⟨"task_1", .fileOp, "file_operations",
          [("operation", .vStr "write"), ("file_path", .vStr "data/temp.txt")],
          ["task_0"], 10, 100⟩
        [("task_0", ⟨"task_0", "intelligent_search", true, .vStr "hello", none, 5⟩)])
      "content" = some (.vStr "hello") :=
  (resolve_params_injection (FS.mk id (fun _ => false) id (fun _ => false))
    ⟨"task_1", .fileOp, "file_operations",
      [("operation", .vStr "write"), ("file_path", .vStr "data/temp.txt")],
      ["task_0"], 10, 100⟩
    [("task_0", ⟨"task_0", "intelligent_search", true, .vStr "hello", none, 5⟩)]
    "task_0" ⟨"task_0", "intelligent_search", true, .vStr "hello", none, 5⟩
    rfl rfl rfl).2 rfl rfl

theorem listHasPre_append_self (p rest : List Char) : listHasPre p (p ++ rest) = true := by
  induction p with
  | nil => rfl
  | cons a as ih => simp [listHasPre, ih]

theorem subOcc_append_self (n rest : List Char) : subOcc n (n ++ rest) = true := by
  cases n with
  | nil =>
    cases rest with
    | nil => rfl
    | cons c t => simp [subOcc, listHasPre]
  | cons a as =>
    show subOcc (a :: as) (a :: (as ++ rest)) = true
    simp [subOcc, listHasPre_append_self (a :: as) rest, listHasPre]
    left
    exact listHasPre_append_self as rest

theorem subOcc_append_left (x n m : List Char) (h : subOcc n m = true) :
    subOcc n (x ++ m) = true := by
  induction x with
  | nil => exact h
  | cons c t ih =>
    show subOcc n (c :: (t ++ m)) = true
    cases n with
    | nil => simp [subOcc, listHasPre]
    | cons b bs =>
      simp only [subOcc, Bool.or_eq_true]
      right
      exact ih

theorem strContains_mid (a q b : String) : strContains (a ++ q ++ b) q = true := by
  unfold strContains
  have hdata : (a ++ q ++ b).data = a.data ++ (q.data ++ b.data) := by
    rw [String.data_append, String.data_append, List.append_assoc]
  rw [hdata]
  exact subOcc_append_left a.data q.data _ (subOcc_append_self q.data b.data)

theorem string_append_eq_empty (s t : String) : s ++ t = "" ↔ s = "" ∧ t = "" := by
  cases s with
  | mk ds =>
    cases t with
    | mk dt =>
      constructor
      · intro h
        have hd : ds ++ dt = [] := by
          have h2 := congrArg String.data h
          rw [String.data_append] at h2
          exact h2
        have h3 := List.append_eq_nil.1 hd
        constructor
        · rw [h3.1]
        · rw [h3.2]
      · rintro ⟨h1, h2⟩
        rw [h1, h2]
        rfl

theorem failMessage_ne_empty (q : String) : failMessage q ≠ "" := by
  unfold failMessage
  intro h
  rw [string_append_eq_empty, string_append_eq_empty] at h
  have := h.1.1
  simp at this

theorem failMessage_contains (q : String) : strContains (failMessage q) q = true := by
  unfold failMessage
  exact strContains_mid _ q _

theorem joinNL_ne_empty (s : String) (l : List String) (h : s ≠ "") :
    joinNL (s :: l) ≠ "" := by
  cases l with
  | nil => exact h
  | cons a as =>
    show s ++ "\n" ++ joinNL (a :: as) ≠ ""
    intro hc
    rw [string_append_eq_empty, string_append_eq_empty] at hc
    exact h hc.1.1

/-- C8 counterexample: with exactly one successful result whose output is
the empty string (short and single-line), the fallback formatter returns
the empty string — the claimed unconditional non-emptiness fails. -/
theorem fallback_empty_output_counterexample :
    fallbackFormat "查询" [("task_0", ⟨"task_0", "tool_a", true, .vStr "", none, 5⟩)]
      = "" := rfl

/-- C8 amended: the fallback formatter is a total function; with no
successful result it returns the fixed failure message, which contains the
original query and is nonempty; with exactly one successful result whose
output is short (< 500 chars) and has no newline in its first 100 chars it
returns exactly that output unmodified; and its result can be empty only in
that single-result case with an empty output string. -/
theorem fallback_format_spec (q : String) (results : ResultMap) :
    ((results.map (·.2)).filter (·.success) = [] →
      fallbackFormat q results = failMessage q ∧
      strContains (fallbackFormat q results) q = true ∧
      fallbackFormat q results ≠ "") ∧
    (∀ r, (results.map (·.2)).filter (·.success) = [r] →
      (pyStr r.output).data.length < 500 →
      ((pyStr r.output).data.take 100).contains '\n' = false →
      fallbackFormat q results = pyStr r.output) ∧
    (fallbackFormat q results = "" →
      ∃ r, (results.map (·.2)).filter (·.success) = [r] ∧ pyStr r.output = "") := by
  refine ⟨?_, ?_, ?_⟩
  · intro hno
    have heq : fallbackFormat q results = failMessage q := by
      unfold fallbackFormat
      rw [hno]
    rw [heq]
    exact ⟨rfl, failMessage_contains q, failMessage_ne_empty q⟩
  · intro r hone h500 hnl
    unfold fallbackFormat
    rw [hone]
    dsimp only
    have hc : (decide ((pyStr r.output).data.length < 500) &&
        !((pyStr r.output).data.take 100).contains '\n') = true := by
      simp only [Bool.and_eq_true, decide_eq_true_eq, Bool.not_eq_true']
      exact ⟨h500, hnl⟩
    rw [if_pos hc]
  · intro hemp
    unfold fallbackFormat at hemp
    cases hfil : (results.map (·.2)).filter (·.success) with
    | nil =>
      rw [hfil] at hemp
      dsimp only at hemp
      exact absurd hemp (failMessage_ne_empty q)
    | cons r1 rest =>
      cases rest with
      | nil =>
        rw [hfil] at hemp
        dsimp only at hemp
        by_cases hcond : (decide ((pyStr r1.output).data.length < 500) &&
            !((pyStr r1.output).data.take 100).contains '\n') = true
        · refine ⟨r1, rfl, ?_⟩
          rw [if_pos hcond] at hemp
          exact hemp
        · exfalso
          rw [if_neg hcond] at hemp
          rw [string_append_eq_empty, string_append_eq_empty] at hemp
          have := hemp.1.1
          have h2 := (string_append_eq_empty _ _).1 this
          exact absurd h2.1 (by decide)
      | cons r2 rest2 =>
        rw [hfil] at hemp
        dsimp only at hemp
        exact absurd hemp (joinNL_ne_empty _ _ (by
          intro hc
          rw [string_append_eq_empty, string_append_eq_empty] at hc
          have := hc.1.1
          simp at this))

/-! ### Frame lemmas for the reference-level executor -/

theorem storeRead_set_ne (σ : Store) (r i : Nat) (k : String) (v : PyVal) (h : i ≠ r) :
    storeRead (storeSet σ r k v) i = storeRead σ i := by
  unfold storeRead storeSet
  simp [List.getD, List.getElem?_set_ne (Ne.symm h)]

theorem storeSet_length (σ : Store) (r : Nat) (k : String) (v : PyVal) :
    (storeSet σ r k v).length = σ.length :=
  List.length_set σ r _

theorem storeRead_append_lt (σ : Store) (d : Dict) (i : Nat) (h : i < σ.length) :
    storeRead (σ ++ [d]) i = storeRead σ i := by
  unfold storeRead
  simp [List.getD, List.getElem?_append_left h]

theorem resolveParamsR_frame (fs : FS) (σ : Store) (task : TaskR) (prev : ResultMap) :
    σ.length ≤ (resolveParamsR fs σ task prev).1.length ∧
    ∀ i < σ.length,
      storeRead (resolveParamsR fs σ task prev).1 i = storeRead σ i := by
  have h1len : (σ ++ [storeRead σ task.paramsRef]).length = σ.length + 1 := by simp
  have h1read : ∀ i < σ.length,
      storeRead (σ ++ [storeRead σ task.paramsRef]) i = storeRead σ i := by
    intro i hi
    exact storeRead_append_lt σ _ i hi
  set r : Nat := σ.length with hr
  have hp : ∀ (σa : Store),
      (σa.length = σ.length + 1 ∧ ∀ i < σ.length, storeRead σa i = storeRead σ i) →
      ∀ (upd : Store),
        (upd = σa ∨ ∃ k v, upd = storeSet σa r k v) →
        upd.length = σ.length + 1 ∧ ∀ i < σ.length, storeRead upd i = storeRead σ i := by
    rintro σa ⟨ha1, ha2⟩ upd hupd
    rcases hupd with rfl | ⟨k, v, rfl⟩
    · exact ⟨ha1, ha2⟩
    · refine ⟨by rw [storeSet_length, ha1], ?_⟩
      intro i hi
      rw [storeRead_set_ne σa r i k v (by omega), ha2 i hi]
  have h2 : ∀ (σa : Store),
      (σa.length = σ.length + 1 ∧ ∀ i < σ.length, storeRead σa i = storeRead σ i) →
      ((match alGet (storeRead σa r) "image_path" with
        | some (.vStr s) => storeSet σa r "image_path" (.vStr (normalizeImagePath fs s))
        | _ => σa).length = σ.length + 1 ∧
       ∀ i < σ.length,
         storeRead (match alGet (storeRead σa r) "image_path" with
          | some (.vStr s) => storeSet σa r "image_path" (.vStr (normalizeImagePath fs s))
          | _ => σa) i = storeRead σ i) := by
    intro σa ha
    apply hp σa ha
    cases halt : alGet (storeRead σa r) "image_path" with
    | none => exact Or.inl rfl
    | some v =>
      cases v with
      | vStr s => exact Or.inr ⟨_, _, rfl⟩
      | vNat n => exact Or.inl rfl
      | vNone => exact Or.inl rfl
  have h3 : ∀ (σa : Store),
      (σa.length = σ.length + 1 ∧ ∀ i < σ.length, storeRead σa i = storeRead σ i) →
      ((match alGet (storeRead σa r) "file_path" with
        | some (.vStr s) => storeSet σa r "file_path" (.vStr (normalizeFilePath fs s))
        | _ => σa).length = σ.length + 1 ∧
       ∀ i < σ.length,
         storeRead (match alGet (storeRead σa r) "file_path" with
          | some (.vStr s) => storeSet σa r "file_path" (.vStr (normalizeFilePath fs s))
          | _ => σa) i = storeRead σ i) := by
    intro σa ha
    apply hp σa ha
    cases halt : alGet (storeRead σa r) "file_path" with
    | none => exact Or.inl rfl
    | some v =>
      cases v with
      | vStr s => exact Or.inr ⟨_, _, rfl⟩
      | vNat n => exact Or.inl rfl
      | vNone => exact Or.inl rfl
  have h4 : ∀ (deps : List String) (σa : Store),
      (σa.length = σ.length + 1 ∧ ∀ i < σ.length, storeRead σa i = storeRead σ i) →
      ((deps.foldl
          (fun σb depId =>
            match alGet prev depId with
            | some res =>
                if res.success then
                  if task.intent = .dataAnalysis then storeSet σb r "data" res.output
                  else if task.intent = .fileOp then
                    (if alGet (storeRead σb task.paramsRef) "operation"
                        = some (.vStr "write") then
                       storeSet σb r "content" res.output
                     else σb)
                  else σb
                else σb
            | none => σb)
          σa).length = σ.length + 1 ∧
        ∀ i < σ.length,
          storeRead (deps.foldl
            (fun σb depId =>
              match alGet prev depId with
              | some res =>
                  if res.success then
                    if task.intent = .dataAnalysis then storeSet σb r "data" res.output
                    else if task.intent = .fileOp then
                      (if alGet (storeRead σb task.paramsRef) "operation"
                          = some (.vStr "write") then
                         storeSet σb r "content" res.output
                       else σb)
                    else σb
                  else σb
              | none => σb)
            σa) i = storeRead σ i) := by
    intro deps
    induction deps with
    | nil => intro σa ha; exact ha
    | cons dep rest ih =>
      intro σa ha
      rw [List.foldl_cons]
      apply ih
      apply hp σa ha
      cases halt : alGet prev dep with
      | none => exact Or.inl rfl
      | some res =>
        dsimp only
        by_cases hs : res.success = true
        · rw [if_pos hs]
          by_cases hDA : task.intent = .dataAnalysis
          · rw [if_pos hDA]; exact Or.inr ⟨_, _, rfl⟩
          · rw [if_neg hDA]
            by_cases hFO : task.intent = .fileOp
            · rw [if_pos hFO]
              by_cases hop : alGet (storeRead σa task.paramsRef) "operation"
                  = some (.vStr "write")
              · rw [if_pos hop]; exact Or.inr ⟨_, _, rfl⟩
              · rw [if_neg hop]; exact Or.inl rfl
            · rw [if_neg hFO]; exact Or.inl rfl
        · rw [if_neg hs]; exact Or.inl rfl
  have hres := h4 task.dependencies _
    (h3 _ (h2 (σ ++ [storeRead σ task.paramsRef]) ⟨h1len, h1read⟩))
  constructor
  · exact le_of_le_of_eq (Nat.le_succ σ.length) hres.1.symm
  · exact hres.2

theorem executeTaskR_store (fs : FS) (reg : Registry) (σ : Store) (task : TaskR)
    (prev : ResultMap) :
    (executeTaskR fs reg σ task prev).1 = σ ∨
    (executeTaskR fs reg σ task prev).1 = (resolveParamsR fs σ task prev).1 := by
  unfold executeTaskR
  cases reg task.tool with
  | none => exact Or.inl rfl
  | some toolFun =>
    right
    cases hrp : resolveParamsR fs σ task prev with
    | mk σ' r =>
      dsimp only
      cases toolFun (storeRead σ' r) <;> rfl

theorem executeTaskR_frame (fs : FS) (reg : Registry) (σ : Store) (task : TaskR)
    (prev : ResultMap) :
    σ.length ≤ (executeTaskR fs reg σ task prev).1.length ∧
    ∀ i < σ.length,
      storeRead (executeTaskR fs reg σ task prev).1 i = storeRead σ i := by
  rcases executeTaskR_store fs reg σ task prev with h | h
  · rw [h]
    exact ⟨le_refl _, fun i _ => rfl⟩
  · rw [h]
    exact resolveParamsR_frame fs σ task prev

theorem executeBatchRAux_frame (fs : FS) (reg : Registry) (prev : ResultMap) :
    ∀ (tasks : List TaskR) (σ : Store) (m : ResultMap),
      σ.length ≤ (executeBatchRAux fs reg prev tasks (σ, m)).1.length ∧
      ∀ i < σ.length,
        storeRead (executeBatchRAux fs reg prev tasks (σ, m)).1 i = storeRead σ i := by
  intro tasks
  induction tasks with
  | nil => intro σ m; exact ⟨le_refl _, fun i _ => rfl⟩
  | cons task rest ih =>
    intro σ m
    have htask := executeTaskR_frame fs reg σ task prev
    rw [executeBatchRAux]
    cases htr : executeTaskR fs reg σ task prev with
    | mk σ' res =>
      rw [htr] at htask
      dsimp only at htask ⊢
      have hrest := ih σ' (alSet m task.id
        (futureResultR true res task (getTimeoutR DEFAULT_TIMEOUT task)))
      constructor
      · omega
      · intro i hi
        rw [hrest.2 i (by omega), htask.2 i hi]

theorem executeBatchR_frame (fs : FS) (reg : Registry) (σ : Store)
    (tasks : List TaskR) (prev : ResultMap) :
    σ.length ≤ (executeBatchR fs reg σ tasks prev).1.length ∧
    ∀ i < σ.length,
      storeRead (executeBatchR fs reg σ tasks prev).1 i = storeRead σ i :=
  executeBatchRAux_frame fs reg prev tasks σ []

theorem executePlanRAux_frame (fs : FS) (reg : Registry) (tasksR : List TaskR) :
    ∀ (batches : List (List String)) (σ : Store) (m : ResultMap),
      σ.length ≤ (executePlanRAux fs reg tasksR batches (σ, m)).1.length ∧
      ∀ i < σ.length,
        storeRead (executePlanRAux fs reg tasksR batches (σ, m)).1 i = storeRead σ i := by
  intro batches
  induction batches with
  | nil => intro σ m; exact ⟨le_refl _, fun i _ => rfl⟩
  | cons batch rest ih =>
    intro σ m
    have hbatch := executeBatchR_frame fs reg σ
      (tasksR.filter (fun t => batch.contains t.id)) m
    rw [executePlanRAux]
    cases hbr : executeBatchR fs reg σ (tasksR.filter (fun t => batch.contains t.id)) m with
    | mk σ' newResults =>
      rw [hbr] at hbatch
      dsimp only at hbatch ⊢
      have hrest := ih σ' (alUpdate m newResults)
      constructor
      · omega
      · intro i hi
        rw [hrest.2 i (by omega), hbatch.2 i hi]

/-- C10: executing a plan never mutates the tasks' parameter dicts.
`_resolve_params` works on `task.params.copy()` — a freshly allocated dict —
so every assignment (path normalization and dependency injection) targets
the copy, and after `ParallelExecutor.execute` returns, the dict referenced
by each task's `params` field is unchanged. -/
theorem execute_no_task_params_mutation (fs : FS) (reg : Registry) (σ : Store)
    (tasksR : List TaskR) (batches : List (List String))
    (h : ∀ t ∈ tasksR, t.paramsRef < σ.length) :
    ∀ t ∈ tasksR,
      storeRead (executePlanR fs reg σ tasksR batches).1 t.paramsRef =
        storeRead σ t.paramsRef := by
  intro t ht
  exact (executePlanRAux_frame fs reg tasksR batches σ []).2 t.paramsRef (h t ht)

theorem execute_no_task_params_mutation_witness :
    storeRead
      (executePlanR (FS.mk id (fun _ => false) id (fun _ => false))
        (fun n => if n = "file_operations" then some (fun _ => .ok 7 (.vStr "ok")) else none)
        [[("operation", .vStr "write"), ("file_path", .vStr "data/temp.txt")]]
        [⟨"task_0", .fileOp, "file_operations", 0, [], 10, 100⟩]
        [["task_0"]]).1 0 =
      [("operation", PyVal.vStr "write"), ("file_path", PyVal.vStr "data/temp.txt")] :=
  execute_no_task_params_mutation
    (FS.mk id (fun _ => false) id (fun _ => false))
    (fun n => if n = "file_operations" then some (fun _ => .ok 7 (.vStr "ok")) else none)
    [[("operation", .vStr "write"), ("file_path", .vStr "data/temp.txt")]]
    [⟨"task_0", .fileOp, "file_operations", 0, [], 10, 100⟩]
    [["task_0"]]
    (by decide)
    ⟨"task_0", .fileOp, "file_operations", 0, [], 10, 100⟩ (by decide)

theorem fallback_format_spec_witness :
    fallbackFormat "天气" [("task_0", ⟨"task_0", "tool_a", false, .vNone, some "拒绝", 5⟩)]
        = failMessage "天气" ∧
    fallbackFormat "天气" [("task_0", ⟨"task_0", "tool_a", true, .vStr "晴天", none, 5⟩)]
        = "晴天" :=
  ⟨((fallback_format_spec "天气"
      [("task_0", ⟨"task_0", "tool_a", false, .vNone, some "拒绝", 5⟩)]).1 (by decide)).1,
   (fallback_format_spec "天气"
      [("task_0", ⟨"task_0", "tool_a", true, .vStr "晴天", none, 5⟩)]).2.1
     ⟨"task_0", "tool_a", true, .vStr "晴天", none, 5⟩ (by decide) (by decide) (by decide)⟩

end MaxAI
